import Mathlib

/-!
# Verification of the vpars3 PDF field rename / detection engine

Shallow embedding of the core of `src/pdf_enrichment/pdf_modifier.py`,
`Archived Modification Engine/components/enhanced_field_detector.py` and
`Archived Modification Engine/components/field_analyzer.py`.

Modelling conventions:
* Python `dict`s are embedded as insertion-ordered association lists
  (`List (String × β)`); assignment appends new keys at the end and
  updates existing keys in place, exactly like CPython dicts.
* Python `set`s are embedded by their membership; where the code iterates
  over a set we fix the deterministic first-insertion order (no claim
  below depends on set iteration order).
* PyPDFForm widgets are embedded as a bag of present attributes
  (`getattr(w, p, None)` returning non-`None` corresponds to a key being
  present in the bag) together with the Python class name.
* Strings are ASCII in all inputs of interest; `str.lower` is embedded
  with `Char.toLower`.
* File-system I/O (paths, backup copies, save/reload) is outside the
  embedded state; `modify_fields` is modelled from the point where the
  PDF is loaded, which is the part the claims are about.
-/

namespace VPars

/-- Association-list lookup, first occurrence wins (CPython dict lookup on
the unique-keys lists we build). -/
def lookupA {α β : Type} [DecidableEq α] : List (α × β) → α → Option β
  | [], _ => none
  | (k', v) :: t, k => if k' = k then some v else lookupA t k

/-- CPython dict assignment `d[k] = v`: update in place if the key exists,
otherwise append at the end. -/
def assocSet {α β : Type} [DecidableEq α] : List (α × β) → α → β → List (α × β)
  | [], k, v => [(k, v)]
  | (k', v') :: t, k, v => if k' = k then (k, v) :: t else (k', v') :: assocSet t k v

/-- The keys of an association list, in order. -/
def keysOf {α β : Type} (l : List (α × β)) : List α := l.map Prod.fst

/-- Python `s.startswith(p)` (character-level). -/
def startsWithL (s p : String) : Bool := p.data.isPrefixOf s.data

/-- Python `s.endswith(p)` (character-level). -/
def endsWithL (s p : String) : Bool := p.data.reverse.isPrefixOf s.data.reverse

/-- Python `s[n:]` (character-level). -/
def dropChars (s : String) (n : Nat) : String := ⟨s.data.drop n⟩

/-- Python `sep.join(l)`. -/
def joinSep (sep : String) (l : List String) : String :=
  ⟨List.intercalate sep.data (l.map String.data)⟩

/-- ASCII lower-case letter, the `[a-z]` character class. -/
def isLowerAlpha (c : Char) : Bool := 'a' ≤ c && c ≤ 'z'

/-- The `[a-z0-9-]` character class of the BEM regex. -/
def isBemChar (c : Char) : Bool := isLowerAlpha c || ('0' ≤ c && c ≤ '9') || c = '-'

/-- A `word` of the BEM grammar: `[a-z][a-z0-9-]*`. -/
def isWordL : List Char → Bool
  | [] => false
  | c :: cs => isLowerAlpha c && cs.all isBemChar

/-- Try every split `l = l.take i ++ l.drop i` (the backtracking search a
regex engine performs for `(.+?)`-style subpatterns). -/
def anySplit (l : List Char) (p : List Char → List Char → Bool) : Bool :=
  (List.range (l.length + 1)).any fun i => p (l.take i) (l.drop i)

/-- The optional tail `(?:__[a-z][a-z0-9-]*|--group)?$` of the BEM regex of
`PDFModifier._is_valid_bem_name`. -/
def bemModTail (l : List Char) : Bool :=
  match l with
  | [] => true
  | '_' :: '_' :: m => isWordL m
  | _ => l = ['-', '-', 'g', 'r', 'o', 'u', 'p']

/-- The tail `(?:_[a-z][a-z0-9-]*)?(?:__[a-z][a-z0-9-]*|--group)?$` of the
BEM regex, after the block has been consumed. -/
def bemElemTail (l : List Char) : Bool :=
  bemModTail l ||
    (match l with
     | '_' :: r => anySplit r fun e r2 => isWordL e && bemModTail r2
     | _ => false)

/-- `PDFModifier._is_valid_bem_name` (pdf_modifier.py:299-319): acceptance of
the regex `^[a-z][a-z0-9-]*(?:_[a-z][a-z0-9-]*)?(?:__[a-z][a-z0-9-]*|--group)?$`,
embedded as the existence of a decomposition (regex backtracking search).
There is no reserved-word check in this function. -/
def is_valid_bem_name (s : String) : Bool :=
  anySplit s.data fun b rest => isWordL b && bemElemTail rest

/-! ## The PDFModifier model (pdf_modifier.py) -/

/-- A widget attribute value.  The attributes the modifier touches are
booleans, integers and strings; list-valued attributes (choice lists) are
represented as a string tag plus payload via `.s`. -/
inductive PropValue : Type
  | b (v : Bool)
  | i (v : Int)
  | s (v : String)
deriving DecidableEq, Repr

/-- A PyPDFForm widget: its Python class name plus the bag of attributes
that are present (non-`None`). -/
structure Widget : Type where
  typeName : String
  props : List (String × PropValue)
deriving DecidableEq, Repr

/-- The commit primitive's behaviour when invoked, abstracting the
`try/except` discrimination in `_apply_field_modifications`
(pdf_modifier.py:418-436). -/
inductive CommitBehavior : Type
  | ok
  | raiseAV (msg : String)
  | raiseOther (msg : String)
deriving DecidableEq, Repr

/-- The loaded PDF: the widget dictionary plus the availability of the two
PyPDFForm rename primitives and the commit primitive's behaviour. -/
structure Pdf : Type where
  widgets : List (String × Widget)
  hasUpdateKey : Bool
  hasCommit : Bool
  commitBehavior : CommitBehavior
deriving DecidableEq, Repr

/-- `self.preserve_properties` (pdf_modifier.py:29-46): every flag is `True`. -/
def preserve_properties : List (String × Bool) :=
  [("font", true), ("font_size", true), ("font_color", true), ("bg_color", true),
   ("border_color", true), ("border_width", true), ("alignment", true), ("size", true),
   ("position", true), ("readonly", true), ("required", true), ("choices", true),
   ("max_length", true), ("multiline", true), ("button_style", true), ("tick_color", true)]

/-- `additional_props` (pdf_modifier.py:455-467), in source order (the
duplicated names `quadding`, `ca`, `ca_ns`, `choices` are harmless: dict
assignment overwrites with the same value). -/
def additional_props : List String :=
  ["rect", "bbox", "rotation", "quadding", "flags", "annotation_flags",
   "border_style", "border_dash", "border_effect", "parent", "kids",
   "default_value", "value", "export_value", "choices", "ti", "tu",
   "tm", "ff", "q", "bs", "mk", "ap", "as", "blend_mode", "ca", "ca_ns",
   "da", "dr", "quadding", "rc", "ds", "rv", "opt", "top_index", "i",
   "lock", "sv", "dv", "aa", "bl", "ca", "ca_ns", "e", "f", "fb", "fs",
   "g", "le", "lw", "ml", "ri", "s", "ss", "w", "sound", "movie",
   "screen", "widget", "highlight", "popup", "ink", "file_attachment",
   "stamp", "caret", "text", "free_text", "line", "square", "circle",
   "polygon", "poly_line", "watermark", "threed", "redact", "printer_mark",
   "trap_net", "unknown"]

/-- `PDFModifier._extract_widget_properties` (pdf_modifier.py:440-477):
read every enabled preservable property and every additional property that
is present, into a `properties` dict. -/
def extract_widget_properties (w : Widget) : List (String × PropValue) :=
  let keys := (preserve_properties.filter Prod.snd).map Prod.fst ++ additional_props
  keys.foldl
    (fun acc p =>
      match lookupA w.props p with
      | some v => assocSet acc p v
      | none => acc)
    []

/-- `PDFModifier._restore_widget_properties` (pdf_modifier.py:479-487):
`setattr` each snapshot property back, guarded by `hasattr`. -/
def restore_widget_properties (w : Widget) (properties : List (String × PropValue)) : Widget :=
  properties.foldl
    (fun w' pv =>
      if (lookupA w'.props pv.1).isSome then
        { w' with props := assocSet w'.props pv.1 pv.2 }
      else w')
    w

/-- The field-type enum values used by the modifier
(`FieldType` in field_types.py). -/
inductive FieldType : Type
  | textField
  | checkbox
  | radioButton
  | dropdown
  | signature
deriving DecidableEq, Repr

/-- The `.value` string of the enum member. -/
def FieldType.value : FieldType → String
  | .textField => "TextField"
  | .checkbox => "Checkbox"
  | .radioButton => "RadioButton"
  | .dropdown => "Dropdown"
  | .signature => "Signature"

/-- `PDFModifier._get_field_type_from_widget` (pdf_modifier.py:489-509). -/
def get_field_type_from_widget (w : Widget) : FieldType :=
  match lookupA
      [("Text", FieldType.textField), ("Checkbox", FieldType.checkbox),
       ("Radio", FieldType.radioButton), ("Dropdown", FieldType.dropdown),
       ("Signature", FieldType.signature), ("ListBox", FieldType.dropdown),
       ("Button", FieldType.checkbox), ("TextField", FieldType.textField),
       ("CheckboxField", FieldType.checkbox), ("RadioField", FieldType.radioButton),
       ("DropdownField", FieldType.dropdown), ("SignatureField", FieldType.signature)]
      w.typeName with
  | some t => t
  | none => FieldType.textField

/-- `PDFModifier._validate_field_mappings` (pdf_modifier.py:250-297): one
error per missing source field, then one aggregate error for duplicate
targets, then one aggregate error for grammar-invalid targets.  All
violations are collected before returning. -/
def validate_field_mappings (pdf : Pdf) (field_mappings : List (String × String)) :
    List String :=
  let existing := keysOf pdf.widgets
  let missingErrs :=
    (field_mappings.filter fun m => !(decide (m.1 ∈ existing))).map
      fun m => "Source field " ++ m.1 ++ " not found in PDF"
  let targets := field_mappings.map Prod.snd
  let dups := (targets.filter fun n => 1 < targets.count n).dedup
  let dupErrs :=
    if dups.isEmpty then []
    else ["Duplicate target names: " ++ joinSep ", " dups]
  let invalid :=
    (field_mappings.filter fun m => !(is_valid_bem_name m.2)).map
      fun m => m.1 ++ " -> " ++ m.2
  let invalidErrs :=
    if invalid.isEmpty then []
    else ["Invalid BEM names: " ++ joinSep "; " invalid]
  missingErrs ++ dupErrs ++ invalidErrs

/-- `pdf.update_widget_key(old, new)`: rename the key of the (first) entry
named `old`, keeping the widget and its position. -/
def renameKey {β : Type} : List (String × β) → String → String → List (String × β)
  | [], _, _ => []
  | (k, v) :: t, old, new => if k = old then (new, v) :: t else (k, v) :: renameKey t old new

/-- Error message for a mapping key that names no widget
(pdf_modifier.py:340). -/
def fieldNotFoundMsg (original : String) : String :=
  "Field " ++ original ++ " not found in PDF"

/-- Error message when the rename primitive is missing (pdf_modifier.py:359). -/
def updateKeyUnavailableMsg : String :=
  "PyPDFForm method update_widget_key not available"

/-- Error message when the new name does not resolve after the rename
(pdf_modifier.py:388). -/
def renameFailedMsg (original bem : String) : String :=
  "Failed to rename " ++ original ++ " to " ++ bem ++ ": field not found after rename"

/-- One entry of the `modifications` list (pdf_modifier.py:378-384). -/
structure Modification : Type where
  old : String
  new : String
  type : String
  page : PropValue
  preserved_properties : Nat
deriving DecidableEq, Repr

/-- The per-mapping loop of `PDFModifier._apply_field_modifications`
(pdf_modifier.py:333-415): missing field ⇒ error, continue; missing
`update_widget_key` primitive ⇒ error, `break`; otherwise
snapshot → rename → verify → restore → record. -/
def processMappings (hasUpdateKey : Bool) :
    List (String × Widget) → List (String × String) →
      List Modification × List String × List (String × Widget)
  | ws, [] => ([], [], ws)
  | ws, (original, bem) :: rest =>
    match lookupA ws original with
    | none =>
        let (m, e, ws') := processMappings hasUpdateKey ws rest
        (m, fieldNotFoundMsg original :: e, ws')
    | some widget =>
        let properties := extract_widget_properties widget
        let ftype := get_field_type_from_widget widget
        if hasUpdateKey then
          let ws1 := renameKey ws original bem
          match lookupA ws1 bem with
          | some w1 =>
              let ws2 := assocSet ws1 bem (restore_widget_properties w1 properties)
              let (m, e, ws') := processMappings hasUpdateKey ws2 rest
              ({ old := original, new := bem, type := ftype.value,
                 page := (lookupA properties "page").getD (.i 0),
                 preserved_properties := properties.length } :: m, e, ws')
          | none =>
              let (m, e, ws') := processMappings hasUpdateKey ws1 rest
              (m, renameFailedMsg original bem :: e, ws')
        else
          ([], [updateKeyUnavailableMsg], ws)

/-- The commit block of `_apply_field_modifications` (pdf_modifier.py:418-436):
every commit failure mode lands in `warnings`, never in `errors`. -/
def commitWarnings (pdf : Pdf) : List String :=
  if pdf.hasCommit then
    match pdf.commitBehavior with
    | .ok => []
    | .raiseAV m => ["Warning during commit: " ++ m]
    | .raiseOther m => ["Unexpected error during commit: " ++ m]
  else ["PyPDFForm method commit_widget_key_updates not available"]

/-- `PDFModifier._apply_field_modifications` (pdf_modifier.py:321-438):
the mapping loop followed by the single bulk commit. -/
def apply_field_modifications (pdf : Pdf) (field_mappings : List (String × String)) :
    (List Modification × List String × List String) × Pdf :=
  let (mods, errs, ws') := processMappings pdf.hasUpdateKey pdf.widgets field_mappings
  ((mods, errs, commitWarnings pdf), { pdf with widgets := ws' })

/-- The result object (`FieldModificationResult`), restricted to the fields
the claims are about (paths and timestamp omitted). -/
structure FieldModificationResult : Type where
  modifications : List Modification
  success : Bool
  errors : List String
  warnings : List String
  field_count_before : Nat
  field_count_after : Nat
deriving DecidableEq, Repr

/-- `PDFModifier.modify_fields` (pdf_modifier.py:48-248) from the point the
PDF is loaded: empty mapping and validation failure raise `ValueError`,
which the top-level handler converts into a failure result with an empty
modification list and the untouched PDF; otherwise the modifications are
applied and `success = (errors == [])` (pdf_modifier.py:182). -/
def modify_fields (pdf : Pdf) (field_mappings : List (String × String))
    (validateMappings : Bool) : FieldModificationResult × Pdf :=
  if field_mappings.isEmpty then
    ({ modifications := [], success := false,
       errors := ["Invalid field mappings: No field mappings provided"],
       warnings := [], field_count_before := 0, field_count_after := 0 }, pdf)
  else if validateMappings && !(validate_field_mappings pdf field_mappings).isEmpty then
    ({ modifications := [], success := false,
       errors := ["Invalid field mappings: " ++
         joinSep "; " (validate_field_mappings pdf field_mappings)],
       warnings := [], field_count_before := 0, field_count_after := 0 }, pdf)
  else
    let ((mods, errs, warns), pdf') := apply_field_modifications pdf field_mappings
    ({ modifications := mods, success := errs.isEmpty, errors := errs,
       warnings := warns, field_count_before := pdf.widgets.length,
       field_count_after := pdf'.widgets.length }, pdf')

/-! ## The EnhancedFieldDetector model (enhanced_field_detector.py) -/

/-- ASCII lower-casing of a string (`str.lower` on the ASCII field names of
this code base). -/
def lowerStr (s : String) : String := ⟨s.data.map Char.toLower⟩

/-- Is `pat` an infix of `l`?  (Executable form of Python's substring
test.) -/
def infixOfL (pat l : List Char) : Bool := l.tails.any fun t => pat.isPrefixOf t

/-- Python substring test `sub in s`. -/
def containsSub (s sub : String) : Bool := infixOfL sub.data s.data

/-- `self.field_prefixes` (enhanced_field_detector.py:65-72), a
priority-ordered list of namespace markers. -/
def detector_prefix_table : List String :=
  ["OWNER.", "PREMIUM_PAYOR.", "POLICY_OWNER.", "PRIMARY_INSURED.",
   "INSURED.", "JOINT_OWNER."]

/-- The prefix-stripping step shared by `_process_field_normalization`
(enhanced_field_detector.py:429-448) and `_check_field_accessibility`
(enhanced_field_detector.py:531-552): the first matching table entry wins
(`break` after the first `startswith` hit), not the longest match. -/
def normalizeName (name : String) : String :=
  match detector_prefix_table.find? (fun p => startsWithL name p) with
  | some p => dropChars name p.data.length
  | none => name

/-- `_check_field_accessibility` (enhanced_field_detector.py:531-552): the
accessible set is the PyPDFForm output plus every other detected field
whose first-prefix-stripped name is in the PyPDFForm output.  Sets are
embedded by membership. -/
def check_field_accessibility (allFields pypdfformFields : List String) : List String :=
  pypdfformFields ++
    allFields.filter fun f =>
      !(decide (f ∈ pypdfformFields)) && decide (normalizeName f ∈ pypdfformFields)

/-- Python `str.replace(pat, rep)` on char lists: replace every
non-overlapping occurrence, left to right.  The fuel argument (one unit
per consumed character; callers pass the list length) only serves
structural recursion: each step consumes at least one character.  (The
empty-pattern case never arises below; it is treated as a no-op.) -/
def replaceAllL (pat rep : List Char) : Nat → List Char → List Char
  | _, [] => []
  | 0, l => l
  | n + 1, c :: cs =>
    if !pat.isEmpty && pat.isPrefixOf (c :: cs) then
      rep ++ replaceAllL pat rep n ((c :: cs).drop pat.length)
    else
      c :: replaceAllL pat rep n cs

/-- Python `str.replace`. -/
def replaceAll (s pat rep : String) : String :=
  ⟨replaceAllL pat.data rep.data s.data.length s.data⟩

/-- `_detect_radio_groups` (enhanced_field_detector.py:483-505): every field
ending in `--group` is a container; its options are all other detected
fields containing the suffix-stripped base as a substring that are not
themselves containers.  A group is stored whenever `individual_options` is
non-empty, i.e. has at least one member.  (`_detect_dividend_options` only
logs and never mutates the result, so it is not part of the state.) -/
def detect_radio_groups_containers (allFields : List String) : List (String × List String) :=
  let containers := allFields.filter fun f => endsWithL f "--group"
  containers.foldl
    (fun acc gc =>
      let base := replaceAll gc "--group" ""
      let opts := allFields.filter fun f =>
        (f ≠ gc : Bool) && infixOfL base.data f.data && !(endsWithL f "--group")
      if opts.isEmpty then acc else acc ++ [(gc, opts)])
    []

/-- `_determine_field_type` (enhanced_field_detector.py:456-481): the ordered
predicate chain over the field name. -/
def determine_field_type_name (field_name : String) : String :=
  let lower := lowerStr field_name
  if endsWithL field_name "--group" then "radio_group"
  else if ["_same", "addr_same", "check"].any (fun k => containsSub lower k) then "checkbox"
  else if containsSub lower "signature" && !(containsSub lower "date")
      && !(containsSub lower "name") then "signature"
  else if containsSub lower "date" || endsWithL field_name "_DATE" then "date"
  else if ["dividend", "payment", "billing", "option"].any (fun k => containsSub lower k) then
    "option"
  else "text"

/-- `FieldDetectionResult` (enhanced_field_detector.py:16-55), with sets
embedded as first-insertion-ordered duplicate-free lists. -/
structure FieldDetectionResult : Type where
  pypdfform_fields : List String
  pymupdf_fields : List String
  pypdf2_fields : List String
  annotation_fields : List String
  all_fields : List String
  field_sources : List (String × List String)
  normalized_fields : List (String × String)
  field_prefix_map : List (String × String)
  field_types : List (String × String)
  radio_groups : List (String × List String)
  accessible_fields : List String
deriving DecidableEq, Repr

/-- A document, as the detection strategies see it: its identity (the path
string used as cache key) and what each of the four strategies returns for
it. -/
structure Doc : Type where
  key : String
  pypdfform : List String
  pymupdf : List String
  pypdf2 : List String
  annotations : List String
deriving DecidableEq, Repr

/-- `FieldDetectionResult.add_field` (enhanced_field_detector.py:36-41),
folded over one strategy's output. -/
def addFields (st : List String × List (String × List String))
    (names : List String) (source : String) :
    List String × List (String × List String) :=
  names.foldl
    (fun st name =>
      let all' := if name ∈ st.1 then st.1 else st.1 ++ [name]
      let srcs' :=
        match lookupA st.2 name with
        | none => st.2 ++ [(name, [source])]
        | some l => assocSet st.2 name (l ++ [source])
      (all', srcs'))
    st

/-- `_process_field_normalization` (enhanced_field_detector.py:429-448):
first matching prefix wins; returns `(normalized_fields, field_prefixes)`. -/
def process_field_normalization (allFields : List String) :
    List (String × String) × List (String × String) :=
  allFields.foldl
    (fun st f =>
      match detector_prefix_table.find? (fun p => startsWithL f p) with
      | some p => (assocSet st.1 (dropChars f p.data.length) f, assocSet st.2 f p)
      | none => (assocSet st.1 f f, st.2))
    ([], [])

/-- The uncached body of `detect_all_fields`
(enhanced_field_detector.py:88-143): run the four strategies, union their
outputs with provenance, then normalize, type, group and compute
accessibility. -/
def computeDetection (d : Doc) : FieldDetectionResult :=
  let st := addFields ([], []) d.pypdfform "pypdfform"
  let st := addFields st d.pymupdf "pymupdf"
  let st := addFields st d.pypdf2 "pypdf2"
  let st := addFields st d.annotations "annotations"
  let norm := process_field_normalization st.1
  { pypdfform_fields := d.pypdfform
    pymupdf_fields := d.pymupdf
    pypdf2_fields := d.pypdf2
    annotation_fields := d.annotations
    all_fields := st.1
    field_sources := st.2
    normalized_fields := norm.1
    field_prefix_map := norm.2
    field_types := st.1.map fun f => (f, determine_field_type_name f)
    radio_groups := detect_radio_groups_containers st.1
    accessible_fields := check_field_accessibility st.1 d.pypdfform }

/-- The detector's mutable state: the per-document-identity result cache
(`self.detection_cache`) plus an instrumentation counter of how many
detection strategies have been executed. -/
structure DetectorState : Type where
  cache : List (String × FieldDetectionResult)
  strategyRuns : Nat
deriving DecidableEq, Repr

/-- `EnhancedFieldDetector.detect_all_fields`
(enhanced_field_detector.py:74-150): return the memoized result when the
cache holds the document identity, otherwise run all four strategies (the
counter increases by 4) and cache the result. -/
def detect_all_fields (st : DetectorState) (d : Doc) :
    FieldDetectionResult × DetectorState :=
  match lookupA st.cache d.key with
  | some r => (r, st)
  | none =>
      let r := computeDetection d
      (r, { cache := st.cache ++ [(d.key, r)], strategyRuns := st.strategyRuns + 4 })

/-! ## The RadioGroupDetector model (field_analyzer.py)

`FormField` and `FieldPosition` come from the archived engine's
`field_types` module, which is not part of the source tree; their shape is
reconstructed from every use in `field_analyzer.py` (name, field type,
label, and a position with page/x/y).  Coordinates are modelled as
integers; no claim below depends on fractional coordinates. -/

/-- Position of a field on a page (floats modelled as integers). -/
structure FieldPosition : Type where
  x : Int
  y : Int
  page : Int
deriving DecidableEq, Repr

/-- A form field as `RadioGroupDetector` consumes it. -/
structure FormField : Type where
  name : String
  field_type : FieldType
  label : String
  position : FieldPosition
deriving DecidableEq, Repr

/-- ASCII digit, the `\d` class. -/
def isDigitC (c : Char) : Bool := '0' ≤ c && c ≤ '9'

/-- The `[a-zA-Z]` class. -/
def isAlphaC (c : Char) : Bool := ('a' ≤ c && c ≤ 'z') || ('A' ≤ c && c ≤ 'Z')

/-- Lazy-group-1 extraction for `^(.+?)_(\d+)$`: the shortest non-empty
prefix followed by `_` and a non-empty all-digit suffix (the order a
backtracking engine tries candidate splits). -/
def p1Aux (acc : List Char) : List Char → Option (List Char)
  | [] => none
  | c :: cs =>
      if c = '_' && !acc.isEmpty && !cs.isEmpty && cs.all isDigitC then
        some acc.reverse
      else p1Aux (c :: acc) cs

/-- `re.match(r'^(.+?)_(\d+)$', name, re.IGNORECASE)`, returning group 1. -/
def match_trailing_index (s : String) : Option String :=
  (p1Aux [] s.data).map fun l => ⟨l⟩

/-- The tail `_?(option|choice|item)_?(\d+)$` of the second pattern,
case-insensitively. -/
def p2Rest (r : List Char) : Bool :=
  let afterU1 : List (List Char) := match r with | '_' :: t => [t, r] | _ => [r]
  afterU1.any fun r1 =>
    ["option", "choice", "item"].any fun w =>
      let wl := w.data
      if (r1.take wl.length).map Char.toLower = wl then
        let r2 := r1.drop wl.length
        let afterU2 : List (List Char) := match r2 with | '_' :: t => [t, r2] | _ => [r2]
        afterU2.any fun r3 => !r3.isEmpty && r3.all isDigitC
      else false

/-- Lazy-group-1 search for `^(.+?)_?(option|choice|item)_?(\d+)$`. -/
def p2Aux (acc : List Char) : List Char → Option (List Char)
  | [] => none
  | c :: cs =>
      if p2Rest cs then some (c :: acc).reverse else p2Aux (c :: acc) cs

/-- `re.match(r'^(.+?)_?(option|choice|item)_?(\d+)$', name, re.IGNORECASE)`,
returning group 1. -/
def match_option_index (s : String) : Option String :=
  (p2Aux [] s.data).map fun l => ⟨l⟩

/-- Lazy-group-1 extraction for `^(.+?)_([a-zA-Z]+)$`. -/
def p3Aux (acc : List Char) : List Char → Option (List Char)
  | [] => none
  | c :: cs =>
      if c = '_' && !acc.isEmpty && !cs.isEmpty && cs.all isAlphaC then
        some acc.reverse
      else p3Aux (c :: acc) cs

/-- `re.match(r'^(.+?)_([a-zA-Z]+)$', name, re.IGNORECASE)`, group 1. -/
def match_trailing_alpha (s : String) : Option String :=
  (p3Aux [] s.data).map fun l => ⟨l⟩

/-- Lazy-group-1 extraction for `^([a-zA-Z_]+?)(\d+)$`. -/
def p4Aux (acc : List Char) : List Char → Option (List Char)
  | [] => none
  | c :: cs =>
      if isAlphaC c || c = '_' then
        if !cs.isEmpty && cs.all isDigitC then some (c :: acc).reverse
        else p4Aux (c :: acc) cs
      else none

/-- `re.match(r'^([a-zA-Z_]+?)(\d+)$', name, re.IGNORECASE)`, group 1. -/
def match_letters_digits (s : String) : Option String :=
  (p4Aux [] s.data).map fun l => ⟨l⟩

/-- `match.group(1).lower().strip('_')`. -/
def patternBase (g : String) : String :=
  ⟨((g.data.map Char.toLower).dropWhile (· = '_')).reverse.dropWhile (· = '_') |>.reverse⟩

/-- The ordered regex template list of `_detect_by_naming_pattern`
(field_analyzer.py:212-221). -/
def naming_patterns : List (String → Option String) :=
  [match_trailing_index, match_option_index, match_trailing_alpha, match_letters_digits]

/-- `RadioGroupDetector._detect_by_naming_pattern`
(field_analyzer.py:207-240): every pattern is applied to every radio
field; matches are grouped by the normalized group-1 base; size-1 groups
are filtered out at the end. -/
def detect_by_naming_pattern (radio_fields : List FormField) :
    List (String × List String) :=
  let groups :=
    naming_patterns.foldl
      (fun groups pat =>
        radio_fields.foldl
          (fun groups f =>
            match pat f.name with
            | none => groups
            | some g =>
                let base := patternBase g
                match lookupA groups base with
                | none => groups ++ [(base, [f.name])]
                | some v =>
                    if f.name ∈ v then groups
                    else assocSet groups base (v ++ [f.name]))
          groups)
      []
  groups.filter fun kv => 1 < kv.2.length

/-- Stable insertion of `x` after every already-placed element `y` with
`le y x` (the stability discipline of Python's sort). -/
def insertSorted {α : Type} (le : α → α → Bool) (x : α) : List α → List α
  | [] => [x]
  | y :: t => if le y x then y :: insertSorted le x t else x :: y :: t

/-- Stable sort (insertion sort), matching Python's stable `list.sort`. -/
def sortStable {α : Type} (le : α → α → Bool) (l : List α) : List α :=
  l.foldl (fun acc x => insertSorted le x acc) []

/-- `key=lambda f: (f.position.y, f.position.x)` as a total preorder. -/
def lePosYX (a b : FormField) : Bool :=
  a.position.y < b.position.y ||
    (a.position.y = b.position.y && a.position.x ≤ b.position.x)

/-- One iteration of the run-splitting loop of `_detect_by_position`
(field_analyzer.py:264-275): extend the current run while the consecutive
`y`-distance stays within the 50-pixel threshold, otherwise emit the run
(when it has at least 2 fields) and start a new one. -/
def posStep (acc : List FormField × Option Int × List (String × List String) × Nat)
    (f : FormField) : List FormField × Option Int × List (String × List String) × Nat :=
  let (cur, lastY, groups, gid) := acc
  match lastY with
  | none => (cur ++ [f], some f.position.y, groups, gid)
  | some ly =>
      if (f.position.y - ly).natAbs ≤ 50 then
        (cur ++ [f], some f.position.y, groups, gid)
      else
        if 1 < cur.length then
          ([f], some f.position.y,
           groups ++ [("position_group_" ++ toString gid, cur.map (·.name))], gid + 1)
        else ([f], some f.position.y, groups, gid)

/-- One page's run-splitting loop of `_detect_by_position`
(field_analyzer.py:255-281), including the final emission of the last run
(size at least 2) under a `position_group_<id>` name. -/
def positionRuns (sorted : List FormField)
    (st : List (String × List String) × Nat) :
    List (String × List String) × Nat :=
  let step := sorted.foldl posStep ([], none, st.1, st.2)
  let (cur, _, groups, gid) := step
  if 1 < cur.length then
    (groups ++ [("position_group_" ++ toString gid, cur.map (·.name))], gid + 1)
  else (groups, gid)

/-- `RadioGroupDetector._detect_by_position` (field_analyzer.py:242-284):
fields are bucketed per page (pages in first-occurrence order), sorted by
`(y, x)` and split into proximity runs; the group-id counter is global
across pages. -/
def detect_by_position (radio_fields : List FormField) :
    List (String × List String) :=
  let pageGroups : List (Int × List FormField) :=
    radio_fields.foldl
      (fun pg f =>
        match lookupA pg f.position.page with
        | none => pg ++ [(f.position.page, [f])]
        | some l => assocSet pg f.position.page (l ++ [f]))
      []
  (pageGroups.foldl
    (fun st page => positionRuns (sortStable lePosYX page.2) st)
    ([], 0)).1

/-- `category_patterns` of `_detect_by_labels` (field_analyzer.py:291-300),
in source order. -/
def category_patterns : List (String × List String) :=
  [("gender", ["male", "female", "other", "m", "f"]),
   ("payment_method", ["ach", "check", "wire", "credit", "debit", "cash"]),
   ("frequency", ["monthly", "quarterly", "annual", "weekly", "daily"]),
   ("yes_no", ["yes", "no", "y", "n", "true", "false"]),
   ("dividend", ["cash", "reduce", "accumulate", "paid"]),
   ("withdrawal", ["systematic", "lump", "partial", "full"]),
   ("marital_status", ["single", "married", "divorced", "widowed"]),
   ("employment", ["employed", "retired", "unemployed", "student"])]

/-- `RadioGroupDetector._detect_by_labels` (field_analyzer.py:286-318): a
field joins a category when any keyword is a substring of
`(name + ' ' + label).lower()`; categories with fewer than 2 matches are
dropped. -/
def detect_by_labels (radio_fields : List FormField) :
    List (String × List String) :=
  category_patterns.foldl
    (fun groups ckw =>
      let catFields :=
        radio_fields.foldl
          (fun acc f =>
            let text := lowerStr (f.name ++ " " ++ f.label)
            if ckw.2.any (fun k => containsSub text k) then acc ++ [f.name] else acc)
          []
      if 1 < catFields.length then groups ++ [(ckw.1, catFields)] else groups)
    []

/-- `any(field in existing for existing in merged.values() for field in fields)`
(field_analyzer.py:332-336). -/
def alreadyGrouped (merged : List (String × List String)) (fields : List String) : Bool :=
  merged.any fun kv => fields.any fun f => decide (f ∈ kv.2)

/-- One addition step of `_merge_detection_results`
(field_analyzer.py:329-351): a candidate group is skipped when any of its
fields is already grouped, else stored by dict assignment (so a colliding
group NAME overwrites the existing entry). -/
def addUnclaimed (m : List (String × List String)) (kv : String × List String) :
    List (String × List String) :=
  if alreadyGrouped m kv.2 then m else assocSet m kv.1 kv.2

/-- The final validation loop of `_merge_detection_results`
(field_analyzer.py:353-359): deduplicate each group's members and keep
only groups with at least 2 of them. -/
def validateGroups (m : List (String × List String)) : List (String × List String) :=
  m.foldl
    (fun acc kv =>
      let u := kv.2.dedup
      if 1 < u.length then acc ++ [(kv.1, u)] else acc)
    []

/-- `RadioGroupDetector._merge_detection_results` (field_analyzer.py:320-362):
start from the pattern groups; add each position group, then each label
group, unless any of its fields is already grouped; finally validate. -/
def merge_detection_results (pattern_groups position_groups label_groups :
    List (String × List String)) : List (String × List String) :=
  let m1 := pattern_groups
  let m2 := position_groups.foldl addUnclaimed m1
  let m3 := label_groups.foldl addUnclaimed m2
  validateGroups m3

/-- `RadioGroupDetector.detect_radio_groups` (field_analyzer.py:178-205):
filter the radio-button fields, run the three strategies and merge. -/
def analyzer_detect_radio_groups (form_fields : List FormField) :
    List (String × List String) :=
  let radio_fields := form_fields.filter fun f => decide (f.field_type = FieldType.radioButton)
  if radio_fields.isEmpty then []
  else
    merge_detection_results
      (detect_by_naming_pattern radio_fields)
      (detect_by_position radio_fields)
      (detect_by_labels radio_fields)

/-! ## Specification-side definitions and sample inputs -/

/-- The shapes of the target-name grammar as the amended claim states them,
written independently of the matcher: a name is `block`, `block_element`,
`block__modifier`, `block_element__modifier`, `block--group` or
`block_element--group`, where each part matches `[a-z][a-z0-9-]*`.  Used
only to characterize `is_valid_bem_name`. -/
def bemShape (l : List Char) : Prop :=
  isWordL l = true
  ∨ (∃ b e, l = b ++ '_' :: e ∧ isWordL b = true ∧ isWordL e = true)
  ∨ (∃ b m, l = b ++ '_' :: '_' :: m ∧ isWordL b = true ∧ isWordL m = true)
  ∨ (∃ b e m, l = b ++ '_' :: (e ++ '_' :: '_' :: m) ∧
      isWordL b = true ∧ isWordL e = true ∧ isWordL m = true)
  ∨ (∃ b, l = b ++ ['-', '-', 'g', 'r', 'o', 'u', 'p'] ∧ isWordL b = true)
  ∨ (∃ b e, l = b ++ '_' :: (e ++ ['-', '-', 'g', 'r', 'o', 'u', 'p']) ∧
      isWordL b = true ∧ isWordL e = true)

/-- The spec's round-trip example field: `firstName` with
`required = false` and `max_length = 40`. -/
def firstNameWidget : Widget :=
  { typeName := "Text", props := [("required", .b false), ("max_length", .i 40)] }

/-- A one-field PDF holding `firstName`, with both rename primitives. -/
def firstNamePdf : Pdf :=
  { widgets := [("firstName", firstNameWidget)], hasUpdateKey := true,
    hasCommit := true, commitBehavior := .ok }

/-- A two-field PDF (`firstName`, `lastName`), with both rename
primitives. -/
def firstNamePdf2 : Pdf :=
  { widgets := [("firstName", firstNameWidget),
                ("lastName", { typeName := "Text", props := [("max_length", .i 30)] })],
    hasUpdateKey := true, hasCommit := true, commitBehavior := .ok }

/-- A two-entry rename batch for `firstNamePdf2`. -/
def renameBatch : List (String × String) :=
  [("firstName", "owner-information_first-name"),
   ("lastName", "owner-information_last-name")]

/-- A one-field PDF holding `good`, with both rename primitives. -/
def goodFieldPdf : Pdf :=
  { widgets := [("good", firstNameWidget)], hasUpdateKey := true,
    hasCommit := true, commitBehavior := .ok }

/-- A radio field on page 0 at height `y` with an empty label. -/
def radioAt (n : String) (y : Int) : FormField :=
  { name := n, field_type := .radioButton, label := "",
    position := { x := 0, y := y, page := 0 } }

/-- The four radio fields of the grouping-priority counterexample:
`gender_1`/`gender_2` are pattern-grouped under the base `gender`, while
`malebox`/`femalebox` match the `gender` label category. -/
def genderFields : List FormField :=
  [radioAt "gender_1" 0, radioAt "gender_2" 10,
   radioAt "malebox" 200, radioAt "femalebox" 400]

/-! ## Association-list lemmas -/

theorem lookupA_assocSet {α β : Type} [DecidableEq α] (l : List (α × β)) (k p : α) (v : β) :
    lookupA (assocSet l k v) p = if k = p then some v else lookupA l p := by
  induction l with
  | nil => simp [assocSet, lookupA]
  | cons hd t ih =>
    obtain ⟨k', v'⟩ := hd
    by_cases h1 : k' = k
    · subst h1
      by_cases h2 : k' = p <;> simp [assocSet, lookupA, h2]
    · have h1' : ¬(k = k') := fun h => h1 h.symm
      by_cases h2 : k' = p
      · subst h2
        simp [assocSet, lookupA, h1, h1']
      · simp [assocSet, lookupA, h1, h2, ih]

theorem lookupA_eq_none_iff {α β : Type} [DecidableEq α] (l : List (α × β)) (k : α) :
    lookupA l k = none ↔ k ∉ keysOf l := by
  induction l with
  | nil => simp [lookupA, keysOf]
  | cons hd t ih =>
    obtain ⟨k', v'⟩ := hd
    by_cases h1 : k' = k
    · subst h1
      simp [lookupA, keysOf]
    · have h1' : ¬(k = k') := fun h => h1 h.symm
      simp [lookupA, keysOf, h1, h1', ih]

theorem mem_keysOf_of_lookupA {α β : Type} [DecidableEq α] {l : List (α × β)} {k : α} {v : β}
    (h : lookupA l k = some v) : k ∈ keysOf l := by
  by_contra hk
  rw [← lookupA_eq_none_iff] at hk
  rw [h] at hk
  exact Option.noConfusion hk

theorem assocSet_self {α β : Type} [DecidableEq α] {l : List (α × β)} {k : α} {v : β}
    (h : lookupA l k = some v) : assocSet l k v = l := by
  induction l with
  | nil => simp [lookupA] at h
  | cons hd t ih =>
    obtain ⟨k', v'⟩ := hd
    by_cases h1 : k' = k
    · subst h1
      simp [lookupA] at h
      simp [assocSet, h]
    · simp only [lookupA, if_neg h1] at h
      simp [assocSet, h1, ih h]

theorem keysOf_assocSet_nodup {α β : Type} [DecidableEq α] {l : List (α × β)} (k : α) (v : β)
    (h : (keysOf l).Nodup) : (keysOf (assocSet l k v)).Nodup := by
  induction l with
  | nil => simp [assocSet, keysOf]
  | cons hd t ih =>
    obtain ⟨k', v'⟩ := hd
    simp only [keysOf, List.map_cons, List.nodup_cons] at h
    by_cases h1 : k' = k
    · subst h1
      simpa [assocSet, keysOf, List.nodup_cons] using h
    · have hlk : lookupA (assocSet t k v) k' = none := by
        rw [lookupA_assocSet, if_neg (fun hh => h1 hh.symm)]
        exact (lookupA_eq_none_iff t k').mpr h.1
      have hmem : k' ∉ keysOf (assocSet t k v) :=
        (lookupA_eq_none_iff (assocSet t k v) k').mp hlk
      simp only [assocSet, if_neg h1, keysOf, List.map_cons, List.nodup_cons]
      exact ⟨hmem, ih h.2⟩

theorem lookupA_append_single {α β : Type} [DecidableEq α] (l : List (α × β)) (k : α) (v : β)
    (h : lookupA l k = none) : lookupA (l ++ [(k, v)]) k = some v := by
  induction l with
  | nil => simp [lookupA]
  | cons hd t ih =>
    obtain ⟨k', v'⟩ := hd
    by_cases h1 : k' = k
    · simp [lookupA, h1] at h
    · simp only [lookupA, if_neg h1] at h
      simpa [lookupA, h1] using ih h

/-! ## C8: detection memoization -/

/-- C8: for every detector state and document, a second
`detect_all_fields` call on the unchanged document identity returns
exactly the first call's result and leaves the state (in particular the
count of executed strategies) unchanged: the cached result is returned
without re-running any detection strategy. -/
theorem detect_all_fields_memoized (st : DetectorState) (d : Doc) :
    detect_all_fields (detect_all_fields st d).2 d = detect_all_fields st d ∧
      (detect_all_fields (detect_all_fields st d).2 d).2.strategyRuns =
        (detect_all_fields st d).2.strategyRuns := by
  refine ⟨?_, ?_⟩
  · cases h : lookupA st.cache d.key with
    | some r => simp [detect_all_fields, h]
    | none =>
      have h2 : lookupA (st.cache ++ [(d.key, computeDetection d)]) d.key
          = some (computeDetection d) := lookupA_append_single _ _ _ h
      simp [detect_all_fields, h, h2]
  · cases h : lookupA st.cache d.key with
    | some r => simp [detect_all_fields, h]
    | none =>
      have h2 : lookupA (st.cache ++ [(d.key, computeDetection d)]) d.key
          = some (computeDetection d) := lookupA_append_single _ _ _ h
      simp [detect_all_fields, h, h2]

/-! ## C9: commit failure is non-fatal -/

/-- C9: the errors and modifications produced by
`_apply_field_modifications` do not depend on the commit primitive's
availability or behaviour; a raising commit (of either exception class)
lands in the warnings list only; and in every branch of `modify_fields`
the result's success flag equals `errors == []`. -/
theorem commit_failure_nonfatal (ws : List (String × Widget)) (huk : Bool)
    (field_mappings : List (String × String)) (hc : Bool) (cb : CommitBehavior)
    (vm : Bool) (m : String) :
    (apply_field_modifications ⟨ws, huk, hc, cb⟩ field_mappings).1.1 =
        (apply_field_modifications ⟨ws, huk, true, .ok⟩ field_mappings).1.1 ∧
      (apply_field_modifications ⟨ws, huk, hc, cb⟩ field_mappings).1.2.1 =
        (apply_field_modifications ⟨ws, huk, true, .ok⟩ field_mappings).1.2.1 ∧
      (apply_field_modifications ⟨ws, huk, hc, cb⟩ field_mappings).1.2.2 =
        commitWarnings ⟨ws, huk, hc, cb⟩ ∧
      commitWarnings ⟨ws, huk, true, .raiseAV m⟩ = ["Warning during commit: " ++ m] ∧
      commitWarnings ⟨ws, huk, true, .raiseOther m⟩ =
        ["Unexpected error during commit: " ++ m] ∧
      commitWarnings ⟨ws, huk, false, cb⟩ =
        ["PyPDFForm method commit_widget_key_updates not available"] ∧
      (modify_fields ⟨ws, huk, hc, cb⟩ field_mappings vm).1.success =
        (modify_fields ⟨ws, huk, hc, cb⟩ field_mappings vm).1.errors.isEmpty := by
  refine ⟨rfl, rfl, rfl, rfl, rfl, rfl, ?_⟩
  unfold modify_fields
  by_cases h0 : field_mappings.isEmpty
  · simp [h0]
  · by_cases h1 : vm && !(validate_field_mappings ⟨ws, huk, hc, cb⟩ field_mappings).isEmpty
    · simp [h0, h1]
    · simp [h0, h1, apply_field_modifications]

/-! ## C7: accessibility characterization -/

/-- C7: a detected field is in the accessible set if and only if its raw
name is in the PyPDFForm (primary strategy) output, or the name obtained
by stripping its first matching table prefix is. -/
theorem accessibility_characterization (allFields pypdfformFields : List String)
    (f : String) (hf : f ∈ allFields) :
    f ∈ check_field_accessibility allFields pypdfformFields ↔
      (f ∈ pypdfformFields ∨ normalizeName f ∈ pypdfformFields) := by
  unfold check_field_accessibility
  rw [List.mem_append, List.mem_filter]
  constructor
  · rintro (h | ⟨-, h⟩)
    · exact Or.inl h
    · simp only [Bool.and_eq_true, Bool.not_eq_true', decide_eq_false_iff_not,
        decide_eq_true_eq] at h
      exact Or.inr h.2
  · rintro (h | h)
    · exact Or.inl h
    · by_cases hraw : f ∈ pypdfformFields
      · exact Or.inl hraw
      · refine Or.inr ⟨hf, ?_⟩
        simp only [Bool.and_eq_true, Bool.not_eq_true', decide_eq_false_iff_not,
          decide_eq_true_eq]
        exact ⟨hraw, h⟩

/-- Witness for C7 at a concrete input: `OWNER.name` is detected but not in
the primary output; its first-prefix-stripped form `name` is, so it is
accessible. -/
theorem accessibility_characterization_witness :
    ("OWNER.name" ∈ (["OWNER.name", "name"] : List String)) ∧
      ("OWNER.name" ∈ check_field_accessibility ["OWNER.name", "name"] ["name"] ↔
        ("OWNER.name" ∈ (["name"] : List String) ∨
          normalizeName "OWNER.name" ∈ (["name"] : List String))) :=
  ⟨by decide,
   accessibility_characterization ["OWNER.name", "name"] ["name"] "OWNER.name" (by decide)⟩

/-! ## C2: validation atomicity -/

theorem mem_validate_missing (pdf : Pdf) (maps : List (String × String))
    (m : String × String) (hm : m ∈ maps) (hmk : m.1 ∉ keysOf pdf.widgets) :
    ("Source field " ++ m.1 ++ " not found in PDF") ∈ validate_field_mappings pdf maps := by
  unfold validate_field_mappings
  refine List.mem_append_left _ (List.mem_append_left _ ?_)
  exact List.mem_map.mpr ⟨m, List.mem_filter.mpr ⟨hm, by simp [hmk]⟩, rfl⟩

/-- C2: when mapping validation is enabled and the mapping has any
violation (the validator returns a non-empty error list), `modify_fields`
aborts the whole batch: success is false, errors are non-empty, the
modification list is empty and the PDF state is untouched; and every
missing-key violation contributes its own collected error. -/
theorem validation_atomicity (pdf : Pdf) (maps : List (String × String))
    (hne : validate_field_mappings pdf maps ≠ []) :
    (modify_fields pdf maps true).1.success = false ∧
      (modify_fields pdf maps true).1.errors ≠ [] ∧
      (modify_fields pdf maps true).1.modifications = [] ∧
      (modify_fields pdf maps true).2 = pdf ∧
      ∀ m ∈ maps, m.1 ∉ keysOf pdf.widgets →
        ("Source field " ++ m.1 ++ " not found in PDF") ∈ validate_field_mappings pdf maps := by
  have h0 : maps.isEmpty = false := by
    cases maps with
    | nil => exact absurd rfl hne
    | cons a t => rfl
  have h1 : (validate_field_mappings pdf maps).isEmpty = false := by
    cases hv : validate_field_mappings pdf maps with
    | nil => exact absurd hv hne
    | cons a t => rfl
  refine ⟨?_, ?_, ?_, ?_, fun m hm hmk => mem_validate_missing pdf maps m hm hmk⟩ <;>
    simp [modify_fields, h0, h1]

/-! ## C10: missing rename primitive ends the loop, result is structured -/

theorem processMappings_not_found_pre (huk : Bool) (ws : List (String × Widget))
    (pre rest : List (String × String))
    (hpre : ∀ m ∈ pre, lookupA ws m.1 = none) :
    processMappings huk ws (pre ++ rest) =
      ((processMappings huk ws rest).1,
       pre.map (fun m => fieldNotFoundMsg m.1) ++ (processMappings huk ws rest).2.1,
       (processMappings huk ws rest).2.2) := by
  induction pre with
  | nil => simp
  | cons m t ih =>
    obtain ⟨o, bm⟩ := m
    have hm : lookupA ws o = none := hpre (o, bm) (by simp)
    have ht : ∀ x ∈ t, lookupA ws x.1 = none := fun x hx => hpre x (by simp [hx])
    simp [processMappings, hm, ih ht]

/-- C10: when the loaded document lacks `update_widget_key`, the mapping
loop records the single unavailability error at the first entry whose
field exists and breaks (entries after it contribute nothing), the
modification list is empty, `modify_fields` still runs the commit step
(the warnings are exactly the commit block's), and it returns a
structured result with `success = false` instead of raising. -/
theorem update_key_unavailable_behavior (ws : List (String × Widget)) (hc : Bool)
    (cb : CommitBehavior) (pre post : List (String × String)) (g t : String)
    (hpre : ∀ m ∈ pre, lookupA ws m.1 = none)
    (hg : (lookupA ws g).isSome = true) :
    (modify_fields ⟨ws, false, hc, cb⟩ (pre ++ (g, t) :: post) false).1.errors =
        pre.map (fun m => fieldNotFoundMsg m.1) ++ [updateKeyUnavailableMsg] ∧
      (modify_fields ⟨ws, false, hc, cb⟩ (pre ++ (g, t) :: post) false).1.modifications = [] ∧
      (modify_fields ⟨ws, false, hc, cb⟩ (pre ++ (g, t) :: post) false).1.warnings =
        commitWarnings ⟨ws, false, hc, cb⟩ ∧
      (modify_fields ⟨ws, false, hc, cb⟩ (pre ++ (g, t) :: post) false).1.success = false := by
  obtain ⟨w, hw⟩ := Option.isSome_iff_exists.mp hg
  have hproc : processMappings false ws ((g, t) :: post) = ([], [updateKeyUnavailableMsg], ws) := by
    simp [processMappings, hw]
  have hall := processMappings_not_found_pre false ws pre ((g, t) :: post) hpre
  rw [hproc] at hall
  have hne : (pre ++ (g, t) :: post).isEmpty = false := by
    cases pre <;> rfl
  refine ⟨?_, ?_, ?_, ?_⟩ <;>
    simp [modify_fields, hne, apply_field_modifications, hall]

/-- Witness for C10: a PDF holding only `good` and no `update_widget_key`;
the mapping has a missing key first, then `good`, then a further entry
that is never attempted. -/
theorem update_key_unavailable_behavior_witness :
    (∀ m ∈ ([("missing", "owner-information_x")] : List (String × String)),
        lookupA [("good", firstNameWidget)] m.1 = none) ∧
      ((lookupA [("good", firstNameWidget)] "good").isSome = true) ∧
      ((modify_fields ⟨[("good", firstNameWidget)], false, true, .ok⟩
          ([("missing", "owner-information_x")] ++
            ("good", "owner-information_first-name") :: [("other", "y")]) false).1.errors =
          [("missing", "owner-information_x")].map (fun m => fieldNotFoundMsg m.1) ++
            [updateKeyUnavailableMsg] ∧
        (modify_fields ⟨[("good", firstNameWidget)], false, true, .ok⟩
          ([("missing", "owner-information_x")] ++
            ("good", "owner-information_first-name") :: [("other", "y")]) false).1.modifications
            = [] ∧
        (modify_fields ⟨[("good", firstNameWidget)], false, true, .ok⟩
          ([("missing", "owner-information_x")] ++
            ("good", "owner-information_first-name") :: [("other", "y")]) false).1.warnings =
          commitWarnings ⟨[("good", firstNameWidget)], false, true, .ok⟩ ∧
        (modify_fields ⟨[("good", firstNameWidget)], false, true, .ok⟩
          ([("missing", "owner-information_x")] ++
            ("good", "owner-information_first-name") :: [("other", "y")]) false).1.success
            = false) :=
  ⟨by decide, by decide,
   update_key_unavailable_behavior [("good", firstNameWidget)] true .ok
     [("missing", "owner-information_x")] [("other", "y")]
     "good" "owner-information_first-name" (by decide) (by decide)⟩

/-! ## renameKey lemmas -/

theorem renameKey_lookup_new_isSome {β : Type} {ws : List (String × β)}
    {old : String} {w : β} (h : lookupA ws old = some w) (nw : String) :
    (lookupA (renameKey ws old nw) nw).isSome = true := by
  induction ws with
  | nil => simp [lookupA] at h
  | cons hd t ih =>
    obtain ⟨k, v⟩ := hd
    by_cases h1 : k = old
    · subst h1
      simp [renameKey, lookupA]
    · simp only [lookupA, if_neg h1] at h
      by_cases h2 : k = nw
      · subst h2
        simp [renameKey, h1, lookupA]
      · simp [renameKey, h1, lookupA, h2, ih h]

theorem renameKey_lookup_other_none {β : Type} {ws : List (String × β)}
    {m old nw : String} (hm : lookupA ws m = none) (hne : m ≠ nw) :
    lookupA (renameKey ws old nw) m = none := by
  have hnm : ¬(nw = m) := fun hh => hne hh.symm
  induction ws with
  | nil => simp [renameKey, lookupA]
  | cons hd t ih =>
    obtain ⟨k, v⟩ := hd
    by_cases h1 : k = m
    · simp [lookupA, h1] at hm
    · simp only [lookupA, if_neg h1] at hm
      by_cases h2 : k = old
      · subst h2
        simp [renameKey, lookupA, hnm, hm]
      · simp [renameKey, h2, lookupA, h1, ih hm]

theorem renameKey_lookup_new {β : Type} {ws : List (String × β)}
    {old nw : String} {w : β} (h : lookupA ws old = some w) (hnw : nw ∉ keysOf ws) :
    lookupA (renameKey ws old nw) nw = some w := by
  induction ws with
  | nil => simp [lookupA] at h
  | cons hd t ih =>
    obtain ⟨k, v⟩ := hd
    simp only [keysOf, List.map_cons, List.mem_cons, not_or] at hnw
    by_cases h1 : k = old
    · subst h1
      simp [lookupA] at h
      subst h
      simp [renameKey, lookupA]
    · simp only [lookupA, if_neg h1] at h
      have hk : ¬(k = nw) := fun hh => hnw.1 hh.symm
      have ih2 := ih h (by
        intro hmem
        exact hnw.2 (by simpa [keysOf] using hmem))
      simpa [renameKey, h1, lookupA, hk] using ih2

theorem renameKey_lookup_old_none {β : Type} {ws : List (String × β)}
    {old nw : String} {w : β} (hnd : (keysOf ws).Nodup) (hne : old ≠ nw)
    (h : lookupA ws old = some w) :
    lookupA (renameKey ws old nw) old = none := by
  induction ws with
  | nil => simp [lookupA] at h
  | cons hd t ih =>
    obtain ⟨k, v⟩ := hd
    simp only [keysOf, List.map_cons, List.nodup_cons] at hnd
    by_cases h1 : k = old
    · subst h1
      have hno : ¬(nw = k) := fun hh => hne hh.symm
      simp [renameKey, lookupA, hno, (lookupA_eq_none_iff t k).mpr hnd.1]
    · simp only [lookupA, if_neg h1] at h
      simp [renameKey, h1, lookupA, ih hnd.2 h]

theorem renameKey_lookup_preserved {β : Type} {ws : List (String × β)}
    {x old nw : String} (hxo : x ≠ old) (hxn : x ≠ nw) :
    lookupA (renameKey ws old nw) x = lookupA ws x := by
  induction ws with
  | nil => rfl
  | cons hd t ih =>
    obtain ⟨k, v⟩ := hd
    by_cases h1 : k = old
    · subst h1
      have hk : ¬(k = x) := fun hh => hxo hh.symm
      have hn : ¬(nw = x) := fun hh => hxn hh.symm
      simp [renameKey, lookupA, hk, hn]
    · simp [renameKey, h1, lookupA, ih]

theorem mem_keysOf_renameKey {β : Type} {ws : List (String × β)} {x old nw : String}
    (h : x ∈ keysOf (renameKey ws old nw)) : x ∈ keysOf ws ∨ x = nw := by
  induction ws with
  | nil => simp [renameKey, keysOf] at h
  | cons hd t ih =>
    obtain ⟨k, v⟩ := hd
    by_cases h1 : k = old
    · subst h1
      have he : renameKey ((k, v) :: t) k nw = (nw, v) :: t := by simp [renameKey]
      rw [he] at h
      simp only [keysOf, List.map_cons, List.mem_cons] at h ⊢
      rcases h with h | h
      · exact Or.inr h
      · exact Or.inl (Or.inr h)
    · have he : renameKey ((k, v) :: t) old nw = (k, v) :: renameKey t old nw := by
        simp [renameKey, h1]
      rw [he] at h
      simp only [keysOf, List.map_cons, List.mem_cons] at h ⊢
      rcases h with h | h
      · exact Or.inl (Or.inl h)
      · rcases ih h with h2 | h2
        · exact Or.inl (Or.inr h2)
        · exact Or.inr h2

theorem keysOf_renameKey_nodup {β : Type} {ws : List (String × β)} {old nw : String}
    (hnd : (keysOf ws).Nodup) (hnw : nw ∉ keysOf ws) :
    (keysOf (renameKey ws old nw)).Nodup := by
  induction ws with
  | nil => simp [renameKey, keysOf]
  | cons hd t ih =>
    obtain ⟨k, v⟩ := hd
    simp only [keysOf, List.map_cons, List.nodup_cons, List.mem_cons, not_or] at hnd hnw
    by_cases h1 : k = old
    · subst h1
      have he : renameKey ((k, v) :: t) k nw = (nw, v) :: t := by simp [renameKey]
      rw [he]
      simp only [keysOf, List.map_cons, List.nodup_cons]
      exact ⟨hnw.2, hnd.2⟩
    · have he : renameKey ((k, v) :: t) old nw = (k, v) :: renameKey t old nw := by
        simp [renameKey, h1]
      rw [he]
      simp only [keysOf, List.map_cons, List.nodup_cons]
      refine ⟨?_, ih hnd.2 hnw.2⟩
      intro hmem
      rcases mem_keysOf_renameKey hmem with h2 | h2
      · exact hnd.1 h2
      · exact hnw.1 h2.symm

/-! ## C4: per-field isolation (corrected: only without validation) -/

/-- Counterexample for C4 as stated: a mapping with one nonexistent key
and one renameable key, run through `modify_fields` with mapping
validation enabled (its default), produces ZERO successful modifications
(the whole batch aborts during validation), not exactly one. -/
theorem per_field_isolation_counterexample :
    (modify_fields goodFieldPdf
        [("missing", "owner-information_x"), ("good", "owner-information_first-name")]
        true).1.modifications = [] ∧
      (modify_fields goodFieldPdf
        [("missing", "owner-information_x"), ("good", "owner-information_first-name")]
        true).1.errors.length = 1 := by
  constructor <;> rfl

/-- C4 (amended): with mapping validation DISABLED, a two-entry mapping
with one nonexistent key `m` and one existing key `g` (whose target is
not the missing name) yields exactly one error and exactly one
successful modification, in either entry order: one entry's failure does
not prevent the other from being processed. -/
theorem per_field_isolation_no_validation (ws : List (String × Widget)) (hc : Bool)
    (cb : CommitBehavior) (m g t u : String) (w : Widget)
    (hm : lookupA ws m = none) (hg : lookupA ws g = some w) (hum : u ≠ m) :
    ((modify_fields ⟨ws, true, hc, cb⟩ [(m, t), (g, u)] false).1.errors.length = 1 ∧
      (modify_fields ⟨ws, true, hc, cb⟩ [(m, t), (g, u)] false).1.modifications.length = 1) ∧
    ((modify_fields ⟨ws, true, hc, cb⟩ [(g, u), (m, t)] false).1.errors.length = 1 ∧
      (modify_fields ⟨ws, true, hc, cb⟩ [(g, u), (m, t)] false).1.modifications.length = 1) := by
  obtain ⟨w1, hw1⟩ := Option.isSome_iff_exists.mp (renameKey_lookup_new_isSome hg u)
  constructor
  · have hproc : processMappings true ws [(m, t), (g, u)] =
        ([{ old := g, new := u,
            type := (get_field_type_from_widget w).value,
            page := (lookupA (extract_widget_properties w) "page").getD (.i 0),
            preserved_properties := (extract_widget_properties w).length }],
         [fieldNotFoundMsg m],
         assocSet (renameKey ws g u) u
           (restore_widget_properties w1 (extract_widget_properties w))) := by
      simp [processMappings, hm, hg, hw1]
    refine ⟨?_, ?_⟩ <;> simp [modify_fields, apply_field_modifications, hproc]
  · have hm2 : lookupA (assocSet (renameKey ws g u) u
        (restore_widget_properties w1 (extract_widget_properties w))) m = none := by
      rw [lookupA_assocSet, if_neg (fun hh => hum hh)]
      exact renameKey_lookup_other_none hm (fun hh => hum hh.symm)
    have hproc : processMappings true ws [(g, u), (m, t)] =
        ([{ old := g, new := u,
            type := (get_field_type_from_widget w).value,
            page := (lookupA (extract_widget_properties w) "page").getD (.i 0),
            preserved_properties := (extract_widget_properties w).length }],
         [fieldNotFoundMsg m],
         assocSet (renameKey ws g u) u
           (restore_widget_properties w1 (extract_widget_properties w))) := by
      simp [processMappings, hm2, hg, hw1]
    refine ⟨?_, ?_⟩ <;> simp [modify_fields, apply_field_modifications, hproc]

/-- Witness for the amended C4 on the one-field PDF `good`. -/
theorem per_field_isolation_no_validation_witness :
    (lookupA [("good", firstNameWidget)] "missing" = none) ∧
      (lookupA [("good", firstNameWidget)] "good" = some firstNameWidget) ∧
      ("owner-information_first-name" ≠ "missing") ∧
      (((modify_fields ⟨[("good", firstNameWidget)], true, true, .ok⟩
          [("missing", "owner-information_x"), ("good", "owner-information_first-name")]
          false).1.errors.length = 1 ∧
        (modify_fields ⟨[("good", firstNameWidget)], true, true, .ok⟩
          [("missing", "owner-information_x"), ("good", "owner-information_first-name")]
          false).1.modifications.length = 1) ∧
      ((modify_fields ⟨[("good", firstNameWidget)], true, true, .ok⟩
          [("good", "owner-information_first-name"), ("missing", "owner-information_x")]
          false).1.errors.length = 1 ∧
        (modify_fields ⟨[("good", firstNameWidget)], true, true, .ok⟩
          [("good", "owner-information_first-name"), ("missing", "owner-information_x")]
          false).1.modifications.length = 1)) :=
  ⟨by decide, by decide, by decide,
   per_field_isolation_no_validation [("good", firstNameWidget)] true .ok
     "missing" "good" "owner-information_x" "owner-information_first-name"
     firstNameWidget (by decide) (by decide) (by decide)⟩

/-! ## C1: rename round-trip fidelity -/

theorem extract_fold_inv (wp : List (String × PropValue)) (ks : List String)
    (acc : List (String × PropValue)) (hnd : (keysOf acc).Nodup)
    (hsub : ∀ p v, lookupA acc p = some v → lookupA wp p = some v) :
    (keysOf (ks.foldl (fun acc p => match lookupA wp p with
      | some v => assocSet acc p v | none => acc) acc)).Nodup ∧
    (∀ p v, lookupA (ks.foldl (fun acc p => match lookupA wp p with
      | some v => assocSet acc p v | none => acc) acc) p = some v
        → lookupA wp p = some v) := by
  induction ks generalizing acc with
  | nil => exact ⟨hnd, hsub⟩
  | cons k kt ih =>
    simp only [List.foldl_cons]
    cases hk : lookupA wp k with
    | none =>
      simp only [hk]
      exact ih acc hnd hsub
    | some v =>
      simp only [hk]
      refine ih _ (keysOf_assocSet_nodup k v hnd) ?_
      intro p pv hp
      rw [lookupA_assocSet] at hp
      by_cases hkp : k = p
      · subst hkp
        rw [if_pos rfl] at hp
        rw [hk]
        exact hp.symm ▸ rfl
      · rw [if_neg hkp] at hp
        exact hsub p pv hp

theorem extract_props_nodup (w : Widget) :
    (keysOf (extract_widget_properties w)).Nodup := by
  unfold extract_widget_properties
  exact (extract_fold_inv w.props _ [] (by simp [keysOf])
    (by intro p v h; simp [lookupA] at h)).1

theorem extract_props_sub (w : Widget) :
    ∀ p v, lookupA (extract_widget_properties w) p = some v → lookupA w.props p = some v := by
  unfold extract_widget_properties
  exact (extract_fold_inv w.props _ [] (by simp [keysOf])
    (by intro p v h; simp [lookupA] at h)).2

theorem restore_self (w : Widget) (properties : List (String × PropValue))
    (hnd : (keysOf properties).Nodup)
    (hsub : ∀ p v, lookupA properties p = some v → lookupA w.props p = some v) :
    restore_widget_properties w properties = w := by
  unfold restore_widget_properties
  induction properties with
  | nil => rfl
  | cons pv t ih =>
    obtain ⟨a, b⟩ := pv
    simp only [keysOf, List.map_cons, List.nodup_cons] at hnd
    have hab : lookupA w.props a = some b := hsub a b (by simp [lookupA])
    have hstep : (if (lookupA w.props a).isSome then
        { w with props := assocSet w.props a b } else w) = w := by
      rw [if_pos (by rw [hab]; rfl)]
      rw [assocSet_self hab]
    simp only [List.foldl_cons]
    rw [hstep]
    refine ih hnd.2 ?_
    intro p v hp
    by_cases hpa : p = a
    · subst hpa
      rw [(lookupA_eq_none_iff t p).mpr hnd.1] at hp
      exact Option.noConfusion hp
    · refine hsub p v ?_
      have hap : ¬(a = p) := fun hh => hpa hh.symm
      simp [lookupA, hap, hp]

theorem restore_extract_self (w : Widget) :
    restore_widget_properties w (extract_widget_properties w) = w :=
  restore_self w _ (extract_props_nodup w) (extract_props_sub w)

/-- How one loop iteration transforms the widget dictionary. -/
theorem processMappings_cons_state (huk : Bool) (ws : List (String × Widget))
    (o n : String) (rest : List (String × String)) :
    (processMappings huk ws ((o, n) :: rest)).2.2 =
      match lookupA ws o with
      | none => (processMappings huk ws rest).2.2
      | some w' =>
          if huk then
            match lookupA (renameKey ws o n) n with
            | some w1 => (processMappings huk
                (assocSet (renameKey ws o n) n
                  (restore_widget_properties w1 (extract_widget_properties w'))) rest).2.2
            | none => (processMappings huk (renameKey ws o n) rest).2.2
          else ws := by
  cases ho : lookupA ws o with
  | none =>
    rcases hrec : processMappings huk ws rest with ⟨mm, ee, ww⟩
    simp [processMappings, ho, hrec]
  | some w' =>
    by_cases hk : huk = true
    · subst hk
      cases h1 : lookupA (renameKey ws o n) n with
      | some w1 =>
        rcases hrec : processMappings true
          (assocSet (renameKey ws o n) n
            (restore_widget_properties w1 (extract_widget_properties w'))) rest with
          ⟨mm, ee, ww⟩
        simp [processMappings, ho, h1, hrec]
      | none =>
        rcases hrec : processMappings true (renameKey ws o n) rest with ⟨mm, ee, ww⟩
        simp [processMappings, ho, h1, hrec]
    · have hkf : huk = false := by revert hk; cases huk <;> simp
      subst hkf
      simp [processMappings, ho]

/-- A name that resolves to nothing and is no mapping entry's target still
resolves to nothing after the whole loop. -/
theorem processMappings_preserves_none (huk : Bool)
    (field_mappings : List (String × String)) :
    ∀ (ws : List (String × Widget)) (x : String), lookupA ws x = none →
      (∀ m ∈ field_mappings, m.2 ≠ x) →
      lookupA (processMappings huk ws field_mappings).2.2 x = none := by
  induction field_mappings with
  | nil => intro ws x hx _; exact hx
  | cons hd rest ih =>
    intro ws x hx htg
    obtain ⟨o, n⟩ := hd
    have hn : ¬(n = x) := htg (o, n) (by simp)
    have htg' : ∀ m ∈ rest, m.2 ≠ x := fun m hm => htg m (by simp [hm])
    rw [processMappings_cons_state]
    cases ho : lookupA ws o with
    | none => exact ih ws x hx htg'
    | some w' =>
      have hx1 : lookupA (renameKey ws o n) x = none :=
        renameKey_lookup_other_none hx (fun hh => hn hh.symm)
      by_cases hk : huk = true
      · subst hk
        cases h1 : lookupA (renameKey ws o n) n with
        | some w1 =>
          simp only [if_true]
          refine ih _ x ?_ htg'
          rw [lookupA_assocSet, if_neg hn]
          exact hx1
        | none =>
          simp only [if_true]
          exact ih _ x hx1 htg'
      · have hkf : huk = false := by revert hk; cases huk <;> simp
        subst hkf
        simp only [Bool.false_eq_true, if_false]
        exact hx

/-- A name that resolves to a widget and is neither a key nor a target of
any mapping entry still resolves to the same widget after the loop. -/
theorem processMappings_preserves_some (huk : Bool)
    (field_mappings : List (String × String)) :
    ∀ (ws : List (String × Widget)) (x : String) (wx : Widget),
      lookupA ws x = some wx →
      (∀ m ∈ field_mappings, m.1 ≠ x) → (∀ m ∈ field_mappings, m.2 ≠ x) →
      lookupA (processMappings huk ws field_mappings).2.2 x = some wx := by
  induction field_mappings with
  | nil => intro ws x wx hx _ _; exact hx
  | cons hd rest ih =>
    intro ws x wx hx hks htg
    obtain ⟨o, n⟩ := hd
    have ho_ne : ¬(o = x) := hks (o, n) (by simp)
    have hn : ¬(n = x) := htg (o, n) (by simp)
    have hks' : ∀ m ∈ rest, m.1 ≠ x := fun m hm => hks m (by simp [hm])
    have htg' : ∀ m ∈ rest, m.2 ≠ x := fun m hm => htg m (by simp [hm])
    rw [processMappings_cons_state]
    cases ho : lookupA ws o with
    | none => exact ih ws x wx hx hks' htg'
    | some w' =>
      have hx1 : lookupA (renameKey ws o n) x = some wx := by
        rw [renameKey_lookup_preserved (fun hh => ho_ne hh.symm) (fun hh => hn hh.symm)]
        exact hx
      by_cases hk : huk = true
      · subst hk
        cases h1 : lookupA (renameKey ws o n) n with
        | some w1 =>
          simp only [if_true]
          refine ih _ x wx ?_ hks' htg'
          rw [lookupA_assocSet, if_neg hn]
          exact hx1
        | none =>
          simp only [if_true]
          exact ih _ x wx hx1 hks' htg'
      · have hkf : huk = false := by revert hk; cases huk <;> simp
        subst hkf
        simp only [Bool.false_eq_true, if_false]
        exact hx

/-- The batch version of the round-trip, at the loop level: in a mapping
whose keys are distinct, whose targets are distinct, fresh (not existing
field names) and not themselves mapping keys, every entry whose key
resolves ends with its very widget under the new name and with the old
name resolving to nothing. -/
theorem processMappings_batch (field_mappings : List (String × String)) :
    ∀ (ws : List (String × Widget)),
      (keysOf ws).Nodup →
      (field_mappings.map Prod.fst).Nodup →
      (field_mappings.map Prod.snd).Nodup →
      (∀ t ∈ field_mappings.map Prod.snd, t ∉ keysOf ws) →
      (∀ k ∈ field_mappings.map Prod.fst, k ∉ field_mappings.map Prod.snd) →
      ∀ (o n : String) (w : Widget), (o, n) ∈ field_mappings → lookupA ws o = some w →
        lookupA (processMappings true ws field_mappings).2.2 n = some w ∧
          lookupA (processMappings true ws field_mappings).2.2 o = none := by
  induction field_mappings with
  | nil =>
    intro ws _ _ _ _ _ o n w hmem _
    exact absurd hmem (List.not_mem_nil _)
  | cons hd rest ih =>
    intro ws hnd hknd htnd hfresh hdisj o n w hmem hw
    obtain ⟨o₀, n₀⟩ := hd
    have hn₀fresh : n₀ ∉ keysOf ws := hfresh n₀ (by simp)
    rw [List.map_cons] at hknd htnd
    have hknd' : (rest.map Prod.fst).Nodup := (List.nodup_cons.mp hknd).2
    have hknd1 : o₀ ∉ rest.map Prod.fst := (List.nodup_cons.mp hknd).1
    have htnd' : (rest.map Prod.snd).Nodup := (List.nodup_cons.mp htnd).2
    have htnd1 : n₀ ∉ rest.map Prod.snd := (List.nodup_cons.mp htnd).1
    have hfresh' : ∀ t ∈ rest.map Prod.snd, t ∉ keysOf ws := fun t ht =>
      hfresh t (by simp; right; simpa using ht)
    have hdisj' : ∀ k ∈ rest.map Prod.fst, k ∉ rest.map Prod.snd := by
      intro k hk1 hk2
      exact hdisj k (by simp; right; simpa using hk1) (by simp; right; simpa using hk2)
    rw [processMappings_cons_state]
    cases ho₀ : lookupA ws o₀ with
    | none =>
      rcases List.mem_cons.mp hmem with heq | hmem'
      · exfalso
        injection heq with e1 e2
        rw [e1] at hw
        rw [hw] at ho₀
        exact Option.noConfusion ho₀
      · exact ih ws hnd hknd' htnd' hfresh' hdisj' o n w hmem' hw
    | some w' =>
      have h1 : lookupA (renameKey ws o₀ n₀) n₀ = some w' := renameKey_lookup_new ho₀ hn₀fresh
      simp only [if_true, h1]
      have hws2 : assocSet (renameKey ws o₀ n₀) n₀
          (restore_widget_properties w' (extract_widget_properties w')) =
            renameKey ws o₀ n₀ := by
        rw [restore_extract_self, assocSet_self h1]
      rw [hws2]
      rcases List.mem_cons.mp hmem with heq | hmem'
      · injection heq with e1 e2
        subst e1
        subst e2
        rw [hw] at ho₀
        injection ho₀ with e3
        subst e3
        have honk : o ∈ keysOf ws := mem_keysOf_of_lookupA hw
        constructor
        · refine processMappings_preserves_some true rest _ n w h1 ?_ ?_
          · intro m hm hh
            have hm1 : m.1 ∈ List.map Prod.fst ((o, n) :: rest) := by
              rw [List.map_cons]
              exact List.mem_cons_of_mem _ (List.mem_map_of_mem Prod.fst hm)
            exact hdisj m.1 hm1 (by rw [hh]; simp)
          · intro m hm hh
            exact htnd1 (hh ▸ List.mem_map_of_mem Prod.snd hm)
        · have hne : o ≠ n := fun hh => hn₀fresh (hh ▸ honk)
          have ho_none : lookupA (renameKey ws o n) o = none :=
            renameKey_lookup_old_none hnd hne hw
          refine processMappings_preserves_none true rest _ o ho_none ?_
          intro m hm hh
          have hm2 : m.2 ∈ List.map Prod.snd ((o, n) :: rest) := by
            rw [List.map_cons]
            exact List.mem_cons_of_mem _ (List.mem_map_of_mem Prod.snd hm)
          exact hfresh m.2 hm2 (hh ▸ honk)
      · have ho_ne : o ≠ o₀ := by
          intro hh
          exact hknd1 (hh ▸ List.mem_map_of_mem Prod.fst hmem')
        have ho_nen₀ : o ≠ n₀ := by
          intro hh
          have hm1 : o ∈ List.map Prod.fst ((o₀, n₀) :: rest) := by
            rw [List.map_cons]
            exact List.mem_cons_of_mem _ (List.mem_map_of_mem Prod.fst hmem')
          exact hdisj o hm1 (by rw [hh]; simp)
        have hw1 : lookupA (renameKey ws o₀ n₀) o = some w := by
          rw [renameKey_lookup_preserved ho_ne ho_nen₀]
          exact hw
        refine ih (renameKey ws o₀ n₀) (keysOf_renameKey_nodup hnd hn₀fresh)
          hknd' htnd' ?_ hdisj' o n w hmem' hw1
        intro t ht hmem2
        rcases mem_keysOf_renameKey hmem2 with h2 | h2
        · exact hfresh t (by simp; right; simpa using ht) h2
        · exact htnd1 (h2 ▸ ht)

/-- The widget dictionary `modify_fields` ends with (validation off,
non-empty mapping) is the loop's final dictionary. -/
theorem modify_fields_widgets (pdf : Pdf) (field_mappings : List (String × String))
    (h : field_mappings ≠ []) :
    (modify_fields pdf field_mappings false).2.widgets =
      (processMappings pdf.hasUpdateKey pdf.widgets field_mappings).2.2 := by
  have hne : field_mappings.isEmpty = false := by
    cases field_mappings with
    | nil => exact absurd rfl h
    | cons a t => rfl
  rcases hrec : processMappings pdf.hasUpdateKey pdf.widgets field_mappings with ⟨mm, ee, ww⟩
  simp [modify_fields, hne, apply_field_modifications, hrec]

/-- C1: for every field renamed by `modify_fields` — every mapping entry
`(o, n)` whose key resolves, in a batch whose keys are distinct and whose
targets are distinct, fresh, and not themselves mapping keys — the output
holds the very same widget under the new name `n` (hence every property
captured in the pre-rename snapshot, unchanged: conjunct three says the
snapshot agrees with the widget's own attributes), and the old name `o`
no longer resolves to any field. -/
theorem rename_roundtrip (ws : List (String × Widget)) (hc : Bool) (cb : CommitBehavior)
    (field_mappings : List (String × String)) (o n : String) (w : Widget)
    (hnd : (keysOf ws).Nodup)
    (hknd : (field_mappings.map Prod.fst).Nodup)
    (htnd : (field_mappings.map Prod.snd).Nodup)
    (hfresh : ∀ t ∈ field_mappings.map Prod.snd, t ∉ keysOf ws)
    (hdisj : ∀ k ∈ field_mappings.map Prod.fst, k ∉ field_mappings.map Prod.snd)
    (hmem : (o, n) ∈ field_mappings)
    (hw : lookupA ws o = some w) :
    lookupA (modify_fields ⟨ws, true, hc, cb⟩ field_mappings false).2.widgets n = some w ∧
      lookupA (modify_fields ⟨ws, true, hc, cb⟩ field_mappings false).2.widgets o = none ∧
      (∀ p v, lookupA (extract_widget_properties w) p = some v →
        lookupA w.props p = some v) := by
  have hb := processMappings_batch field_mappings ws hnd hknd htnd hfresh hdisj o n w hmem hw
  rw [modify_fields_widgets _ _ (List.ne_nil_of_mem hmem)]
  exact ⟨hb.1, hb.2, extract_props_sub w⟩

/-- Witness for C1 at the spec's example: a two-field PDF where
`firstName` (with `required = false, max_length = 40`) is renamed to
`owner-information_first-name` in a two-entry batch; the output holds the
new name with the same widget (hence `required = false` and
`max_length = 40`) and no longer holds `firstName`. -/
theorem rename_roundtrip_witness :
    ((keysOf firstNamePdf2.widgets).Nodup ∧
      lookupA firstNamePdf2.widgets "firstName" = some firstNameWidget ∧
      (("firstName", "owner-information_first-name") ∈ renameBatch)) ∧
    (lookupA (modify_fields firstNamePdf2 renameBatch false).2.widgets
        "owner-information_first-name" = some firstNameWidget ∧
      lookupA (modify_fields firstNamePdf2 renameBatch false).2.widgets
        "firstName" = none ∧
      (∀ p v, lookupA (extract_widget_properties firstNameWidget) p = some v →
        lookupA firstNameWidget.props p = some v)) ∧
    lookupA firstNameWidget.props "required" = some (.b false) ∧
    lookupA firstNameWidget.props "max_length" = some (.i 40) :=
  ⟨⟨by decide, by decide, by decide⟩,
   rename_roundtrip firstNamePdf2.widgets true .ok renameBatch
     "firstName" "owner-information_first-name" firstNameWidget
     (by decide) (by decide) (by decide) (by decide) (by decide) (by decide) (by decide),
   by decide, by decide⟩

/-! ## C5: radio-group minimum size (corrected: the explicit-container
strategy emits singleton groups) -/

/-- Counterexample for C5 as stated: on a document whose fields are
`x--group` and `x_a`, the enhanced detector's explicit-container strategy
emits the radio group `x--group` with exactly ONE member into the
detection result, so not every emitted group has at least 2 members. -/
theorem singleton_container_group_counterexample :
    (computeDetection ⟨"form.pdf", ["x--group", "x_a"], [], [], []⟩).radio_groups =
        [("x--group", ["x_a"])] ∧
      ((computeDetection ⟨"form.pdf", ["x--group", "x_a"], [], [], []⟩).radio_groups.all
        fun kv => 2 ≤ kv.2.length) = false := by
  constructor <;> rfl

theorem validateGroups_fold_inv (m : List (String × List String))
    (acc : List (String × List String))
    (hacc : ∀ kv ∈ acc, 2 ≤ kv.2.length ∧ kv.2.Nodup) :
    ∀ kv ∈ m.foldl
      (fun acc kv =>
        let u := kv.2.dedup
        if 1 < u.length then acc ++ [(kv.1, u)] else acc) acc,
      2 ≤ kv.2.length ∧ kv.2.Nodup := by
  induction m generalizing acc with
  | nil => exact hacc
  | cons kv0 t ih =>
    simp only [List.foldl_cons]
    by_cases h : 1 < kv0.2.dedup.length
    · simp only [h, if_true]
      refine ih _ ?_
      intro kv hkv
      rcases List.mem_append.mp hkv with h1 | h1
      · exact hacc kv h1
      · rcases List.mem_singleton.mp h1 with rfl
        exact ⟨h, List.nodup_dedup _⟩
    · simp only [h, if_false]
      exact ih _ hacc

theorem posfold_inv (fields : List FormField)
    (st : List FormField × Option Int × List (String × List String) × Nat)
    (h : ∀ kv ∈ st.2.2.1, 2 ≤ kv.2.length) :
    ∀ kv ∈ (fields.foldl posStep st).2.2.1, 2 ≤ kv.2.length := by
  induction fields generalizing st with
  | nil => exact h
  | cons f t ih =>
    simp only [List.foldl_cons]
    refine ih _ ?_
    obtain ⟨cur, lastY, groups, gid⟩ := st
    simp only [] at h
    cases lastY with
    | none => simpa [posStep] using h
    | some ly =>
      by_cases hd : (f.position.y - ly).natAbs ≤ 50
      · simpa [posStep, hd] using h
      · by_cases hlen : 1 < cur.length
        · simp only [posStep, hd, if_false, hlen, if_true]
          intro kv hkv
          rcases List.mem_append.mp hkv with h1 | h1
          · exact h kv h1
          · rcases List.mem_singleton.mp h1 with rfl
            simpa using hlen
        · simpa [posStep, hd, hlen] using h

theorem positionRuns_inv (sorted : List FormField)
    (st : List (String × List String) × Nat)
    (h : ∀ kv ∈ st.1, 2 ≤ kv.2.length) :
    ∀ kv ∈ (positionRuns sorted st).1, 2 ≤ kv.2.length := by
  have hf := posfold_inv sorted ([], none, st.1, st.2) (by simpa using h)
  simp only [positionRuns]
  rcases hE : sorted.foldl posStep ([], none, st.1, st.2) with ⟨cur, ly, groups, gid⟩
  rw [hE] at hf
  simp only [] at hf
  by_cases hlen : 1 < cur.length
  · simp only [hlen, if_true]
    intro kv hkv
    rcases List.mem_append.mp hkv with h1 | h1
    · exact hf kv h1
    · rcases List.mem_singleton.mp h1 with rfl
      simpa using hlen
  · simp only [hlen, if_false]
    exact hf

theorem pages_fold_inv (pages : List (Int × List FormField))
    (st : List (String × List String) × Nat)
    (h : ∀ kv ∈ st.1, 2 ≤ kv.2.length) :
    ∀ kv ∈ (pages.foldl
      (fun st page => positionRuns (sortStable lePosYX page.2) st) st).1,
      2 ≤ kv.2.length := by
  induction pages generalizing st with
  | nil => exact h
  | cons pg t ih =>
    simp only [List.foldl_cons]
    exact ih _ (positionRuns_inv _ _ h)

theorem labels_fold_inv (cats : List (String × List String)) (rf : List FormField)
    (acc : List (String × List String))
    (hacc : ∀ kv ∈ acc, 2 ≤ kv.2.length) :
    ∀ kv ∈ cats.foldl
      (fun groups ckw =>
        let catFields :=
          rf.foldl
            (fun acc f =>
              let text := lowerStr (f.name ++ " " ++ f.label)
              if ckw.2.any (fun k => containsSub text k) then acc ++ [f.name] else acc)
            []
        if 1 < catFields.length then groups ++ [(ckw.1, catFields)] else groups) acc,
      2 ≤ kv.2.length := by
  induction cats generalizing acc with
  | nil => exact hacc
  | cons c t ih =>
    simp only [List.foldl_cons]
    refine ih _ ?_
    intro kv hkv
    by_cases h : 1 < (rf.foldl
        (fun acc f =>
          let text := lowerStr (f.name ++ " " ++ f.label)
          if c.2.any (fun k => containsSub text k) then acc ++ [f.name] else acc)
        []).length
    · simp only [h, if_true] at hkv
      rcases List.mem_append.mp hkv with h1 | h1
      · exact hacc kv h1
      · rcases List.mem_singleton.mp h1 with rfl
        simpa using h
    · simp only [h, if_false] at hkv
      exact hacc kv hkv

/-- C5 (amended): every radio group emitted by the analyzer's merge step
has at least 2 distinct members, and the naming-pattern, visual-proximity
and label-semantics strategies each emit only groups of at least 2
members; the enhanced detector's explicit-container strategy, however,
emits any group with at least one member (see the counterexample). -/
theorem radio_group_min_size_amended :
    (∀ (p q r : List (String × List String)) kv,
        kv ∈ merge_detection_results p q r → 2 ≤ kv.2.length ∧ kv.2.Nodup) ∧
      (∀ (rf : List FormField) kv, kv ∈ detect_by_naming_pattern rf → 2 ≤ kv.2.length) ∧
      (∀ (rf : List FormField) kv, kv ∈ detect_by_position rf → 2 ≤ kv.2.length) ∧
      (∀ (rf : List FormField) kv, kv ∈ detect_by_labels rf → 2 ≤ kv.2.length) := by
  refine ⟨?_, ?_, ?_, ?_⟩
  · intro p q r kv hkv
    exact validateGroups_fold_inv _ [] (by simp) kv hkv
  · intro rf kv hkv
    have := (List.mem_filter.mp hkv).2
    simpa using of_decide_eq_true this
  · intro rf kv hkv
    exact pages_fold_inv _ ([], 0) (by simp) kv hkv
  · intro rf kv hkv
    exact labels_fold_inv category_patterns rf [] (by simp) kv hkv

/-- Witness for the amended C5: one merged group with two members. -/
theorem radio_group_min_size_amended_witness :
    (("g", ["a", "b"]) ∈ merge_detection_results [("g", ["a", "b"])] [] []) ∧
      (2 ≤ (("g", ["a", "b"]) : String × List String).2.length ∧
        (("g", ["a", "b"]) : String × List String).2.Nodup) :=
  ⟨by decide,
   radio_group_min_size_amended.1 [("g", ["a", "b"])] [] [] ("g", ["a", "b"]) (by decide)⟩

/-! ## C6: grouping priority (corrected: name collisions overwrite) -/

/-- Counterexample for C6 as stated: on the four radio fields
`gender_1, gender_2, malebox, femalebox`, the naming-pattern strategy
claims `gender_1`/`gender_2` for the group `gender`, but in the merged
result the label category `gender` (matching `malebox`/`femalebox`)
overwrites that group by dict assignment, after which the freed fields
are regrouped under the lower-priority label category `yes_no`: a
pattern-claimed field is reassigned by the label signal. -/
theorem pattern_reassignment_counterexample :
    detect_by_naming_pattern genderFields = [("gender", ["gender_1", "gender_2"])] ∧
      analyzer_detect_radio_groups genderFields =
        [("gender", ["malebox", "femalebox"]), ("yes_no", ["gender_1", "gender_2"])] := by
  constructor <;> rfl

theorem addUnclaimed_fold_lookup (gs : List (String × List String))
    (m : List (String × List String)) (k : String)
    (hk : ∀ kv ∈ gs, kv.1 ≠ k) :
    lookupA (gs.foldl addUnclaimed m) k = lookupA m k := by
  induction gs generalizing m with
  | nil => rfl
  | cons g t ih =>
    simp only [List.foldl_cons]
    have hg : g.1 ≠ k := hk g (by simp)
    have ht : ∀ kv ∈ t, kv.1 ≠ k := fun kv hkv => hk kv (by simp [hkv])
    rw [ih _ ht]
    by_cases h : alreadyGrouped m g.2
    · simp [addUnclaimed, h]
    · simp [addUnclaimed, h, lookupA_assocSet, hg]

theorem validateGroups_eq_filterMap (m : List (String × List String)) :
    validateGroups m = m.filterMap
      (fun kv => if 1 < kv.2.dedup.length then some (kv.1, kv.2.dedup) else none) := by
  have key : ∀ (m acc : List (String × List String)),
      m.foldl (fun acc kv =>
        let u := kv.2.dedup
        if 1 < u.length then acc ++ [(kv.1, u)] else acc) acc =
      acc ++ m.filterMap
        (fun kv => if 1 < kv.2.dedup.length then some (kv.1, kv.2.dedup) else none) := by
    intro m
    induction m with
    | nil => intro acc; simp
    | cons kv t ih =>
      intro acc
      simp only [List.foldl_cons, List.filterMap_cons]
      by_cases h : 1 < kv.2.dedup.length
      · simp [h, ih, List.append_assoc]
      · simp [h, ih]
  simpa using key m []

theorem validateGroups_lookup (m : List (String × List String)) (k : String)
    (v : List String) (hv : lookupA m k = some v) (hlen : 1 < v.dedup.length) :
    lookupA (validateGroups m) k = some v.dedup := by
  rw [validateGroups_eq_filterMap]
  induction m with
  | nil => simp [lookupA] at hv
  | cons kv t ih =>
    obtain ⟨k', v'⟩ := kv
    by_cases hk : k' = k
    · subst hk
      simp [lookupA] at hv
      subst hv
      simp only [List.filterMap_cons, hlen, if_true, lookupA, if_pos rfl]
    · simp only [lookupA, if_neg hk] at hv
      simp only [List.filterMap_cons]
      cases h : (if 1 < v'.dedup.length then some (k', v'.dedup) else none) with
      | none => exact ih hv
      | some kv2 =>
        obtain ⟨a, b⟩ := kv2
        have ha : a = k' := by
          by_cases h1 : 1 < v'.dedup.length
          · rw [if_pos h1] at h
            injection h with h2
            injection h2 with ha hb
            exact ha.symm
          · rw [if_neg h1] at h
            exact Option.noConfusion h
        have hak : ¬(a = k) := by
          rw [ha]; exact hk
        simp only [lookupA, if_neg hak]
        exact ih hv

/-- C6 (amended): a pattern group whose name is not reused by any
position or label group survives the merge with exactly its (distinct)
members: merge only ever skips or appends lower-priority groups, so a
field claimed by the naming-pattern strategy is then never reassigned.
The counterexample shows the name-collision case the claim missed. -/
theorem pattern_priority_amended (p q r : List (String × List String))
    (k : String) (v : List String)
    (hq : ∀ kv ∈ q, kv.1 ≠ k) (hr : ∀ kv ∈ r, kv.1 ≠ k)
    (hv : lookupA p k = some v) (hlen : 1 < v.dedup.length) :
    lookupA (merge_detection_results p q r) k = some v.dedup := by
  have h2 : lookupA (q.foldl addUnclaimed p) k = some v := by
    rw [addUnclaimed_fold_lookup q p k hq]; exact hv
  have h3 : lookupA (r.foldl addUnclaimed (q.foldl addUnclaimed p)) k = some v := by
    rw [addUnclaimed_fold_lookup r _ k hr]; exact h2
  exact validateGroups_lookup _ k v h3 hlen

/-- Witness for the amended C6: the pattern group `gender` survives a
merge against disjointly-named position and label groups. -/
theorem pattern_priority_amended_witness :
    (∀ kv ∈ ([("position_group_0", ["x", "y"])] : List (String × List String)),
        kv.1 ≠ "gender") ∧
      (∀ kv ∈ ([("yes_no", ["a", "b"])] : List (String × List String)), kv.1 ≠ "gender") ∧
      lookupA [("gender", ["gender_1", "gender_2"])] "gender" =
        some ["gender_1", "gender_2"] ∧
      1 < (["gender_1", "gender_2"] : List String).dedup.length ∧
      lookupA
        (merge_detection_results [("gender", ["gender_1", "gender_2"])]
          [("position_group_0", ["x", "y"])] [("yes_no", ["a", "b"])]) "gender" =
        some (["gender_1", "gender_2"] : List String).dedup :=
  ⟨by decide, by decide, by decide, by decide,
   pattern_priority_amended [("gender", ["gender_1", "gender_2"])]
     [("position_group_0", ["x", "y"])] [("yes_no", ["a", "b"])]
     "gender" ["gender_1", "gender_2"] (by decide) (by decide) (by decide) (by decide)⟩

/-! ## C3: the target-name grammar (corrected: no reserved words,
`block__modifier` also accepted) -/

theorem anySplit_iff (l : List Char) (p : List Char → List Char → Bool) :
    anySplit l p = true ↔ ∃ b c, l = b ++ c ∧ p b c = true := by
  unfold anySplit
  rw [List.any_eq_true]
  constructor
  · rintro ⟨i, _, hp⟩
    exact ⟨l.take i, l.drop i, (List.take_append_drop i l).symm, hp⟩
  · rintro ⟨b, c, rfl, hp⟩
    refine ⟨b.length, ?_, ?_⟩
    · rw [List.mem_range, List.length_append]
      omega
    · rw [List.take_left, List.drop_left]
      exact hp

theorem bemModTail_iff (l : List Char) :
    bemModTail l = true ↔
      l = [] ∨ (∃ m, l = '_' :: '_' :: m ∧ isWordL m = true) ∨
        l = ['-', '-', 'g', 'r', 'o', 'u', 'p'] := by
  unfold bemModTail
  split
  · simp
  · rename_i m
    constructor
    · intro h
      exact Or.inr (Or.inl ⟨m, rfl, h⟩)
    · rintro (h | ⟨m', hm, hw⟩ | h)
      · exact absurd h (by simp)
      · simp only [List.cons.injEq, true_and] at hm
        rw [hm]
        exact hw
      · injection h with h1
        exact absurd h1 (by decide)
  · rename_i hn1 hn2
    rw [decide_eq_true_eq]
    constructor
    · intro h
      exact Or.inr (Or.inr h)
    · rintro (h | ⟨m, hm, hw⟩ | h)
      · exact absurd h hn1
      · exact absurd hm (hn2 m)
      · exact h

theorem bemElemTail_iff (l : List Char) :
    bemElemTail l = true ↔
      bemModTail l = true ∨
        ∃ e r2, l = '_' :: (e ++ r2) ∧ isWordL e = true ∧ bemModTail r2 = true := by
  unfold bemElemTail
  rw [Bool.or_eq_true]
  constructor
  · rintro (h | h)
    · exact Or.inl h
    · right
      split at h
      · rw [anySplit_iff] at h
        obtain ⟨e, r2, rfl, hp⟩ := h
        rw [Bool.and_eq_true] at hp
        exact ⟨e, r2, rfl, hp.1, hp.2⟩
      · exact absurd h (by simp)
  · rintro (h | ⟨e, r2, rfl, he, hr2⟩)
    · exact Or.inl h
    · right
      show anySplit (e ++ r2) _ = true
      rw [anySplit_iff]
      exact ⟨e, r2, rfl, by rw [Bool.and_eq_true]; exact ⟨he, hr2⟩⟩

theorem bem_chars_iff (l : List Char) :
    (anySplit l fun b rest => isWordL b && bemElemTail rest) = true ↔ bemShape l := by
  rw [anySplit_iff]
  constructor
  · rintro ⟨b, rest, rfl, hp⟩
    rw [Bool.and_eq_true] at hp
    obtain ⟨hb, ht⟩ := hp
    rw [bemElemTail_iff] at ht
    rcases ht with hmod | ⟨e, r2, rfl, he, hr2⟩
    · rw [bemModTail_iff] at hmod
      rcases hmod with rfl | ⟨m, rfl, hm⟩ | rfl
      · left
        simpa using hb
      · exact Or.inr (Or.inr (Or.inl ⟨b, m, rfl, hb, hm⟩))
      · exact Or.inr (Or.inr (Or.inr (Or.inr (Or.inl ⟨b, rfl, hb⟩))))
    · rw [bemModTail_iff] at hr2
      rcases hr2 with rfl | ⟨m, rfl, hm⟩ | rfl
      · refine Or.inr (Or.inl ⟨b, e, ?_, hb, he⟩)
        simp
      · exact Or.inr (Or.inr (Or.inr (Or.inl ⟨b, e, m, rfl, hb, he, hm⟩)))
      · exact Or.inr (Or.inr (Or.inr (Or.inr (Or.inr ⟨b, e, rfl, hb, he⟩))))
  · intro h
    rcases h with h1 | ⟨b, e, rfl, hb, he⟩ | ⟨b, m, rfl, hb, hm⟩ |
      ⟨b, e, m, rfl, hb, he, hm⟩ | ⟨b, rfl, hb⟩ | ⟨b, e, rfl, hb, he⟩
    · exact ⟨l, [], by simp, by rw [Bool.and_eq_true]; exact ⟨h1, rfl⟩⟩
    · refine ⟨b, '_' :: e, rfl, ?_⟩
      rw [Bool.and_eq_true]
      refine ⟨hb, ?_⟩
      rw [bemElemTail_iff]
      exact Or.inr ⟨e, [], by simp, he, rfl⟩
    · refine ⟨b, '_' :: '_' :: m, rfl, ?_⟩
      rw [Bool.and_eq_true]
      refine ⟨hb, ?_⟩
      rw [bemElemTail_iff]
      refine Or.inl ?_
      rw [bemModTail_iff]
      exact Or.inr (Or.inl ⟨m, rfl, hm⟩)
    · refine ⟨b, '_' :: (e ++ '_' :: '_' :: m), rfl, ?_⟩
      rw [Bool.and_eq_true]
      refine ⟨hb, ?_⟩
      rw [bemElemTail_iff]
      refine Or.inr ⟨e, '_' :: '_' :: m, rfl, he, ?_⟩
      rw [bemModTail_iff]
      exact Or.inr (Or.inl ⟨m, rfl, hm⟩)
    · refine ⟨b, ['-', '-', 'g', 'r', 'o', 'u', 'p'], rfl, ?_⟩
      rw [Bool.and_eq_true]
      refine ⟨hb, ?_⟩
      rw [bemElemTail_iff]
      refine Or.inl ?_
      rw [bemModTail_iff]
      exact Or.inr (Or.inr rfl)
    · refine ⟨b, '_' :: (e ++ ['-', '-', 'g', 'r', 'o', 'u', 'p']), rfl, ?_⟩
      rw [Bool.and_eq_true]
      refine ⟨hb, ?_⟩
      rw [bemElemTail_iff]
      refine Or.inr ⟨e, ['-', '-', 'g', 'r', 'o', 'u', 'p'], rfl, he, ?_⟩
      rw [bemModTail_iff]
      exact Or.inr (Or.inr rfl)

/-- Counterexample for C3 as stated: the rename-mapping value validator
accepts `class_name` (the claim says a name with the reserved segment
`class` is rejected — there is no reserved-word check in
`_is_valid_bem_name`), and accepts the `block__modifier` shape
`dividend-option__cash`, which is none of the claim's five shapes. -/
theorem bem_grammar_counterexample :
    is_valid_bem_name "class_name" = true ∧
      is_valid_bem_name "dividend-option__cash" = true := by
  constructor <;> rfl

/-- C3 (amended): the validator accepts a name if and only if it is one of
the regex shapes `block`, `block_element`, `block__modifier`,
`block_element__modifier`, `block--group`, `block_element--group` with
each part matching `[a-z][a-z0-9-]*`; no reserved-word filtering is
performed, so `class_name` is accepted.  The spec's other examples behave
as stated. -/
theorem bem_grammar_characterization :
    (∀ s : String, is_valid_bem_name s = true ↔ bemShape s.data) ∧
      is_valid_bem_name "owner-information_first-name" = true ∧
      is_valid_bem_name "dividend-option--group" = true ∧
      is_valid_bem_name "Invalid_Name" = false ∧
      is_valid_bem_name "block_element_modifier" = false ∧
      is_valid_bem_name "class_name" = true :=
  ⟨fun s => bem_chars_iff s.data, rfl, rfl, rfl, rfl, rfl⟩

/-- Witness for C2: a mapping whose only key names no field in the
one-field PDF `good` aborts with no modifications and no mutation. -/
theorem validation_atomicity_witness :
    (validate_field_mappings goodFieldPdf [("missing_field", "owner-information_x")] ≠ []) ∧
      ((modify_fields goodFieldPdf [("missing_field", "owner-information_x")] true).1.success
          = false ∧
        (modify_fields goodFieldPdf
          [("missing_field", "owner-information_x")] true).1.errors ≠ [] ∧
        (modify_fields goodFieldPdf
          [("missing_field", "owner-information_x")] true).1.modifications = [] ∧
        (modify_fields goodFieldPdf [("missing_field", "owner-information_x")] true).2
          = goodFieldPdf ∧
        ∀ m ∈ ([("missing_field", "owner-information_x")] : List (String × String)),
          m.1 ∉ keysOf goodFieldPdf.widgets →
            ("Source field " ++ m.1 ++ " not found in PDF") ∈
              validate_field_mappings goodFieldPdf
                [("missing_field", "owner-information_x")]) :=
  ⟨by decide,
   validation_atomicity goodFieldPdf [("missing_field", "owner-information_x")] (by decide)⟩

end VPars
